import Mathlib

/-!
Verification of the `ai-init` scaffolding tool (src/lib/installer.js,
src/lib/validators/project-validator.js and the bundled template tree).

The repository concatenates several historical generations of
`installer.js`.  The first listing (three alias dotfiles, fixed `next`
template, no project-type detection) is the current one and is embedded
in namespace `Installer`.  The older generation that validates the target
directory with `fs.stat` lives in namespace `InstallerStat`; the
generation whose copy loop special-cases `package.json` and prints a
dependency summary lives in namespace `InstallerPkg`.

The filesystem is modelled as an association list of absolute paths
(lists of segments) to entries (regular files or symbolic links)
together with a list of existing directories.  The modelled filesystem
primitives always succeed, mirroring the success path of the Node
`fs-extra` calls; the explicit checks performed by the installer
(name validation, empty-directory check, `fs.stat`) are modelled
exactly and produce the typed `InstallerError` values of the source.
-/

namespace AiInit

/-- An absolute filesystem path, as the list of its segments from the root.
Mirrors the strings produced by `path.resolve` / `path.join` in the source. -/
abbrev Path := List String

/-- The data stored in a regular file.  Template and user files are opaque
text (`raw`); a `package.json` that `fs.readJson` can parse is modelled as
its dependency and devDependency maps (`manifest`), the only parts of the
parsed object the installer reads. -/
inductive FileData where
  | raw (text : String)
  | manifest (deps devDeps : List (String × String))
deriving DecidableEq

/-- A filesystem entry: a regular file, or a symbolic link storing the
target string it was created with (`targetIsAbsolute` records whether that
string was an absolute path). -/
inductive Entry where
  | file (data : FileData)
  | symlink (targetIsAbsolute : Bool) (target : Path)
deriving DecidableEq

/-- The filesystem state: an association list from absolute paths to
entries, plus the list of directories that exist. -/
structure FS where
  entries : List (Path × Entry)
  dirs : List Path
deriving DecidableEq

namespace FS

/-- The entry stored at path `p`, if any (like `fs.lstat`: does not follow
symbolic links). -/
def lookup (fs : FS) (p : Path) : Option Entry :=
  fs.entries.findSome? (fun x => if x.1 = p then some x.2 else none)

/-- Whether a directory exists at `p`. -/
def dirExists (fs : FS) (p : Path) : Bool :=
  fs.dirs.any (fun r => r = p)

/-- Store entry `e` at path `p`, replacing any previous entry there. -/
def setEntry (fs : FS) (p : Path) (e : Entry) : FS :=
  { fs with entries := (p, e) :: fs.entries.filter (fun x => ¬ x.1 = p) }

/-- `fs.pathExists` / `fs.access`: true when something exists at `p`,
following a symbolic link to its target. -/
def pathExists (fs : FS) (p : Path) : Bool :=
  match fs.lookup p with
  | some (.file _) => true
  | some (.symlink _ t) => (fs.lookup t).isSome || fs.dirExists t
  | none => fs.dirExists p

/-- The non-empty ancestors of a path, shortest first (what `mkdir -p`
creates). -/
def ancestors (p : Path) : List Path :=
  (List.range p.length).map (fun n => p.take (n + 1))

/-- `fs.ensureDir`: create the directory at `p` and every missing
intermediate directory; a no-op for directories that already exist. -/
def ensureDir (fs : FS) (p : Path) : FS :=
  { fs with dirs := fs.dirs ++ (ancestors p).filter (fun q => ¬ fs.dirExists q) }

/-- Read the contents of the regular file at `p`, following one symbolic
link (how `fs.copyFileSync` reads its source). -/
def readFileFollow (fs : FS) (p : Path) : Option FileData :=
  match fs.lookup p with
  | some (.file d) => some d
  | some (.symlink _ t) =>
    match fs.lookup t with
    | some (.file d) => some d
    | _ => none
  | none => none

/-- The names of the immediate children of directory `p`
(`fs.readdir`); `none` when no directory exists at `p` (the call throws). -/
def readdir (fs : FS) (p : Path) : Option (List String) :=
  if fs.dirExists p then
    some (((fs.entries.map Prod.fst ++ fs.dirs).filterMap
      (fun q => if q.dropLast = p then q.getLast? else none)).dedup)
  else none

/-- `fs.stat(p).isDirectory()`: `some b` when `stat` succeeds (following
symbolic links), `none` when it throws because nothing exists at `p`. -/
def statIsDir (fs : FS) (p : Path) : Option Bool :=
  match fs.lookup p with
  | some (.file _) => some false
  | some (.symlink _ t) =>
    match fs.lookup t with
    | some (.file _) => some false
    | some (.symlink _ _) => some false
    | none => if fs.dirExists t then some true else none
  | none => if fs.dirExists p then some true else none

end FS

/-- `fs2` extends `fs`: every entry persists (possibly overwritten by a
regular file, the only kind of overwrite the installers perform), no
directory disappears, and every path that existed still exists.  All the
modelled operations only grow the filesystem in this sense. -/
def FS.Extends (fs2 fs : FS) : Prop :=
  (∀ q e, fs.lookup q = some e →
    fs2.lookup q = some e ∨ ∃ d, fs2.lookup q = some (.file d)) ∧
  (∀ q, fs.dirExists q = true → fs2.dirExists q = true) ∧
  (∀ q, fs.pathExists q = true → fs2.pathExists q = true)

/-!
The name validator.  `createProject` and the repository's own wrapper
`validateProjectName` (src/lib/validators/project-validator.js) both rely
on the `validate-npm-package-name` dependency; its `validate` function is
embedded below over ASCII strings (the `builtins` list models the
`builtins` dependency; the special-characters warning message is
abbreviated, message text aside the logic follows the package).
-/

/-- The whitespace characters removed by JavaScript `String.prototype.trim`
(ASCII part; the Unicode space classes cannot occur in the names the proofs
below quantify over). -/
def isJsWhitespace (c : Char) : Bool :=
  c = ' ' || c = Char.ofNat 9 || c = Char.ofNat 10 || c = Char.ofNat 11 ||
    c = Char.ofNat 12 || c = Char.ofNat 13

/-- JavaScript `name.trim()`. -/
def jsTrim (l : List Char) : List Char :=
  ((l.dropWhile isJsWhitespace).reverse.dropWhile isJsWhitespace).reverse

/-- JavaScript `String.prototype.split` with a single-character separator. -/
def splitOnChar (sep : Char) : List Char → List (List Char)
  | [] => [[]]
  | c :: rest =>
    match splitOnChar sep rest with
    | [] => [[]]
    | s :: ss => if c = sep then [] :: s :: ss else (c :: s) :: ss

/-- JavaScript `name.toLowerCase()` (ASCII part, which is all
`Char.toLower` performs). -/
def asciiLowerString (s : String) : String :=
  String.mk (s.data.map Char.toLower)

/-- Whether `s` starts with the character `c` (the `/^\./` and `/^_/`
tests of the validator). -/
def startsWithChar (s : String) (c : Char) : Bool :=
  s.data.head? = some c

/-- The characters `encodeURIComponent` leaves unchanged; for every other
character `encodeURIComponent(name) !== name`. -/
def encodeUriUnchanged (c : Char) : Bool :=
  c.isAlpha || c.isDigit || c = '-' || c = '_' || c = '.' || c = '!' ||
    c = '~' || c = '*' || c = Char.ofNat 39 || c = '(' || c = ')'

/-- JavaScript `name.split('/').slice(-1)[0]`: the part after the last
slash. -/
def lastSlashSegment (s : String) : List Char :=
  ((splitOnChar '/' s.data).getLast?).getD []

/-- The `/[~'!()*]/` test applied to the last slash-segment. -/
def hasSpecialChars (l : List Char) : Bool :=
  l.any (fun c =>
    c = '~' || c = Char.ofNat 39 || c = '!' || c = '(' || c = ')' || c = '*')

/-- The validator's scoped-package pattern: the whole name matches
`@user/pkg` with non-empty slash-free parts, and both parts survive
`encodeURIComponent` unchanged (the early-success branch of the
URL-friendliness check). -/
def scopedNameOk (l : List Char) : Bool :=
  match l with
  | '@' :: rest =>
    match splitOnChar '/' rest with
    | [user, pkg] =>
      ¬ user.isEmpty && ¬ pkg.isEmpty &&
        user.all encodeUriUnchanged && pkg.all encodeUriUnchanged
    | _ => false
  | _ => false

/-- The blacklist of the `validate-npm-package-name` package. -/
def npmBlacklist : List String := ["node_modules", "favicon.ico"]

/-- The node core-module names the `builtins` dependency reports across
all node versions. -/
def npmBuiltins : List String :=
  ["assert", "async_hooks", "buffer", "child_process", "cluster", "console",
   "constants", "crypto", "dgram", "diagnostics_channel", "dns", "domain",
   "events", "freelist", "fs", "http", "http2", "https", "inspector",
   "module", "net", "os", "path", "perf_hooks", "process", "punycode",
   "querystring", "readline", "repl", "stream", "string_decoder", "sys",
   "timers", "tls", "trace_events", "tty", "url", "util", "v8", "vm",
   "wasi", "worker_threads", "zlib"]

/-- The result object of `validate-npm-package-name` (with the empty
`errors` / `warnings` fields kept as empty lists rather than deleted). -/
structure NpmValidation where
  validForNewPackages : Bool
  validForOldPackages : Bool
  errors : List String
  warnings : List String
deriving DecidableEq

/-- The `validate` function of the `validate-npm-package-name`
dependency, restricted to string arguments (the only way the installer
calls it). -/
def validateNpmPackageName (name : String) : NpmValidation :=
  let errors :=
    (if name.length = 0 then ["name length must be greater than zero"] else []) ++
    (if startsWithChar name '.' then ["name cannot start with a period"] else []) ++
    (if startsWithChar name '_' then ["name cannot start with an underscore"] else []) ++
    (if ¬ jsTrim name.data = name.data then
      ["name cannot contain leading or trailing spaces"] else []) ++
    (npmBlacklist.filterMap (fun b =>
      if asciiLowerString name = b then some (b ++ " is a blacklisted name") else none))
  let warnings :=
    (if asciiLowerString name ∈ npmBuiltins then
      [name ++ " is a core module name"] else []) ++
    (if name.length > 214 then
      ["name can no longer contain more than 214 characters"] else []) ++
    (if ¬ asciiLowerString name = name then
      ["name can no longer contain capital letters"] else []) ++
    (if hasSpecialChars (lastSlashSegment name) then
      ["name can no longer contain special characters"] else [])
  let errors :=
    if name.data.all encodeUriUnchanged then errors
    else if scopedNameOk name.data then errors
    else errors ++ ["name can only contain URL-friendly characters"]
  { validForNewPackages := errors.isEmpty && warnings.isEmpty
    validForOldPackages := errors.isEmpty
    errors := errors
    warnings := warnings }

/-- The result shape of the repository's `validateProjectName` wrapper. -/
structure ValidationResult where
  isValid : Bool
  errors : List String
deriving DecidableEq

/-- `validateProjectName` from src/lib/validators/project-validator.js:
reject empty names outright, otherwise defer to
`validate-npm-package-name` and flatten its errors and warnings. -/
def validateProjectName (name : String) : ValidationResult :=
  if name = "" then { isValid := false, errors := ["Project name is required"] }
  else
    let npmValidation := validateNpmPackageName name
    if ¬ npmValidation.validForNewPackages then
      { isValid := false, errors := npmValidation.errors ++ npmValidation.warnings }
    else { isValid := true, errors := [] }

/-- Modelled from the spec: the §4.1 name rule as written — non-empty, at
most 214 characters, only letters, digits, hyphen, underscore or dot, and
no leading dot or leading hyphen. -/
def specNameRule (name : String) : Bool :=
  ¬ name = "" && name.length ≤ 214 &&
    name.data.all (fun c => c.isAlpha || c.isDigit || c = '-' || c = '_' || c = '.') &&
    ¬ startsWithChar name '.' && ¬ startsWithChar name '-'

/-- The characters the corrected name rule admits: lowercase letters,
digits, hyphen, underscore, dot. -/
def strictNameChars : List Char := "abcdefghijklmnopqrstuvwxyz0123456789-_.".data

/-- The corrected name rule: the spec rule restricted to lowercase
letters, with no leading underscore and no reserved (core-module or
blacklisted) names — exactly the names the npm validator accepts. -/
def strictNameRule (name : String) : Bool :=
  ¬ name = "" && name.length ≤ 214 &&
    name.data.all (fun c => c ∈ strictNameChars) &&
    ¬ startsWithChar name '.' && ¬ startsWithChar name '-' && ¬ startsWithChar name '_' &&
    ¬ name ∈ npmBuiltins && ¬ name ∈ npmBlacklist

/-!
The installers.  Shared pieces first: platform switch, template trees,
typed errors, `path.resolve`, and the alias-creation primitives.
-/

/-- The platform switch read from `process.platform`. -/
inductive Platform where
  | win32
  | other
deriving DecidableEq

/-- A template tree, as the relative paths (in segments) and data of its
files: what `getAllFiles` followed by `path.relative(templatePath, file)`
produces for a bundled template directory. -/
abbrev Template := List (Path × FileData)

/-- The machine-readable codes the installers attach to `InstallerError`. -/
inductive ErrCode where
  | INVALID_NAME
  | DIR_NOT_EMPTY
  | DIR_CREATE_FAILED
  | TEMPLATE_COPY_FAILED
  | TEMPLATE_NOT_FOUND
  | FS_ERROR
  | INVALID_PROJECT_DIR
  | JSON_PARSE_ERROR
deriving DecidableEq

/-- `InstallerError`: its code plus the `details.errors` list (non-empty
only for `INVALID_NAME`). -/
structure InstallerError where
  code : ErrCode
  errors : List String
deriving DecidableEq

deriving instance DecidableEq for Except

/-- The outcome of one installer entry point: the returned project path or
the thrown error, the final filesystem, and the relative paths the copy
loop skipped (printed when VERBOSE is set; empty for the generations that
do not log skips). -/
structure RunOut where
  result : Except InstallerError Path
  fs : FS
  skipped : List Path
deriving DecidableEq

/-- `path.resolve(cwd, name)` for an absolute `cwd` and a separator-free
or relative `name`: split on slashes and apply the segments. -/
def resolvePath (cwd : Path) (name : String) : Path :=
  (((splitOnChar '/' name.data).filter (fun seg => ¬ seg.isEmpty)).map
    (fun seg => String.mk seg)).foldl
    (fun acc seg =>
      if seg = "." then acc
      else if seg = ".." then acc.dropLast
      else acc ++ [seg])
    cwd

/-- `fs-extra.ensureSymlink(src, dst)`: a no-op when something exists at
`dst` (following links); otherwise it checks the absolute source with
`lstat`, creates the parent directory of `dst`, and calls `fs.symlink`,
which fails with `EEXIST` when a dangling link occupies `dst`.  Returns
`false`, paired with the filesystem as mutated so far, when the call
threw. -/
def FS.ensureSymlink (fs : FS) (srcIsAbsolute : Bool) (src dst : Path) : Bool × FS :=
  if fs.pathExists dst then (true, fs)
  else if (fs.lookup src).isNone && ¬ fs.dirExists src then (false, fs)
  else if ((fs.ensureDir dst.dropLast).lookup dst).isSome then
    (false, fs.ensureDir dst.dropLast)
  else (true, (fs.ensureDir dst.dropLast).setEntry dst (.symlink srcIsAbsolute src))

/-- The consecutive `fs.ensureSymlink` calls of a rule-linking block; an
exception aborts the remaining calls because one `try` wraps them all
(and only warns). -/
def linkAliases (srcIsAbsolute : Bool) (src : Path) (fs : FS) : List Path → FS
  | [] => fs
  | d :: rest =>
    match fs.ensureSymlink srcIsAbsolute src d with
    | (true, fs1) => linkAliases srcIsAbsolute src fs1 rest
    | (false, fs1) => fs1

/-- The four consecutive `fs.ensureDir` calls of the add-to-existing
flows: `.cursor/rules`, `doc-files/adr`, `memory-bank`, `mem-scripts`
under the project root. -/
def ensureScaffoldDirs (projectPath : Path) (fs : FS) : FS :=
  (((fs.ensureDir (projectPath ++ [".cursor", "rules"])).ensureDir
    (projectPath ++ ["doc-files", "adr"])).ensureDir
    (projectPath ++ ["memory-bank"])).ensureDir (projectPath ++ ["mem-scripts"])

/-- The consecutive `fs.copyFileSync(rulesPath, aliasPath)` calls of the
Windows branch of a rule-linking block: each call reads the source
(following a link) and overwrites whatever is at the destination; a
failure aborts the remaining copies. -/
def copyAliases (src : Path) (fs : FS) : List Path → FS
  | [] => fs
  | d :: rest =>
    match fs.readFileFollow src with
    | some data => copyAliases src (fs.setEntry d (.file data)) rest
    | none => fs

/-!
The current installer generation (first listing of src/lib/installer.js):
fixed `next` template, three alias dotfiles, no project-type detection.
-/

namespace Installer

/-- The three alias dotfiles linked to `rules.yaml`. -/
def aliasNames : List String := [".windsurfrules", ".cursorrules", ".clinerules"]

/-- The rule-linking block shared verbatim by `createProject` (lines
82–114) and `addToProject` (lines 153–186): when `rules.yaml` exists in
the project, symlink the three alias dotfiles to it — or copy on Windows.
The symlink source is an absolute path because `projectPath` comes from
`path.resolve` / `process.cwd()`. -/
def createRuleLinks (platform : Platform) (projectPath : Path) (fs : FS) : FS :=
  if fs.pathExists (projectPath ++ ["rules.yaml"]) then
    match platform with
    | .win32 =>
      copyAliases (projectPath ++ ["rules.yaml"]) fs
        (aliasNames.map (fun a => projectPath ++ [a]))
    | .other =>
      linkAliases true (projectPath ++ ["rules.yaml"]) fs
        (aliasNames.map (fun a => projectPath ++ [a]))
  else fs

/-- The copy loop of `copyTemplateFiles` (lines 240–264): for each
template file, skip it when `preserveExisting` is set and the destination
exists, otherwise create the parent directory and copy.  The modelled
filesystem operations always succeed, so the per-file `try`/`catch`
(which only warns and continues) has no failing branch.  Returns the
final filesystem and the relative paths skipped. -/
def copyTemplateFiles (targetPath : Path) (preserveExisting : Bool) :
    Template → FS → FS × List Path
  | [], fs => (fs, [])
  | tf :: rest, fs =>
    if preserveExisting && fs.pathExists (targetPath ++ tf.1) then
      ((copyTemplateFiles targetPath preserveExisting rest fs).1,
        tf.1 :: (copyTemplateFiles targetPath preserveExisting rest fs).2)
    else
      copyTemplateFiles targetPath preserveExisting rest
        ((fs.ensureDir (targetPath ++ tf.1).dropLast).setEntry
          (targetPath ++ tf.1) (.file tf.2))

/-- The straight-line tail of `createProject` after its directory checks
(lines 70–116): copy the template without preservation into the resolved
project directory, run the rule-linking block unless `options.skipSymlink`,
and return the project path. -/
def createProjectTail (platform : Platform) (template : Template)
    (projectPath : Path) (skipSymlink : Bool) (fs : FS) : RunOut :=
  ⟨.ok projectPath,
   if skipSymlink then (copyTemplateFiles projectPath false template fs).1
   else createRuleLinks platform projectPath
     (copyTemplateFiles projectPath false template fs).1,
   (copyTemplateFiles projectPath false template fs).2⟩

/-- `createProject` (lines 24–117): validate the name with
`validate-npm-package-name`, resolve the destination against the current
working directory, reject a non-empty existing destination with
`DIR_NOT_EMPTY` (a `readdir` failure surfaces as `DIR_CREATE_FAILED`),
create the directory when missing, then copy and link
(`createProjectTail`). -/
def createProject (platform : Platform) (template : Template) (cwd : Path)
    (projectName : String) (skipSymlink : Bool) (fs : FS) : RunOut :=
  if ¬ (validateNpmPackageName projectName).validForNewPackages then
    ⟨.error ⟨.INVALID_NAME,
        (validateNpmPackageName projectName).errors ++
          (validateNpmPackageName projectName).warnings⟩, fs, []⟩
  else if fs.pathExists (resolvePath cwd projectName) then
    match fs.readdir (resolvePath cwd projectName) with
    | none => ⟨.error ⟨.DIR_CREATE_FAILED, []⟩, fs, []⟩
    | some files =>
      if ¬ files.isEmpty then ⟨.error ⟨.DIR_NOT_EMPTY, []⟩, fs, []⟩
      else createProjectTail platform template (resolvePath cwd projectName)
        skipSymlink fs
  else createProjectTail platform template (resolvePath cwd projectName)
    skipSymlink (fs.ensureDir (resolvePath cwd projectName))

/-- `addToProject` (lines 125–189): copy the template into the current
working directory preserving existing files, ensure the four scaffold
directories, then run the rule-linking block unless
`options.skipSymlink`. -/
def addToProject (platform : Platform) (template : Template) (cwd : Path)
    (skipSymlink : Bool) (fs : FS) : RunOut :=
  ⟨.ok cwd,
   if skipSymlink then
     ensureScaffoldDirs cwd (copyTemplateFiles cwd true template fs).1
   else
     createRuleLinks platform cwd
       (ensureScaffoldDirs cwd (copyTemplateFiles cwd true template fs).1),
   (copyTemplateFiles cwd true template fs).2⟩

/-- The bundled `templates/next` tree of the repository, in `readdir`
order: the two rule files under `.cursor/rules`,
`mem-scripts/gist-install.sh`, `memory-bank/systemPatterns.md` and
`rules.yaml`; it carries no file under `doc-files` (file contents
abbreviated — only the paths matter to the claims about directory
structure). -/
def bundledNextTemplate : Template :=
  [([".cursor", "rules", "memory_bank_enforcement.mdc"],
      .raw "memory_bank_enforcement"),
   ([".cursor", "rules", "ui_component_patterns.mdc"],
      .raw "ui_component_patterns"),
   (["mem-scripts", "gist-install.sh"], .raw "gist-install"),
   (["memory-bank", "systemPatterns.md"], .raw "systemPatterns"),
   (["rules.yaml"], .raw "rules")]

end Installer

/-!
The older installer generation that validates the target directory with
`fs.stat` and auto-detects the project type (second listing of
src/lib/installer.js, lines 299–719; `addToProject` at lines 459–549).
-/

namespace InstallerStat

/-- The two alias dotfiles of this generation. -/
def aliasNames : List String := [".windsurfrules", ".cursorrules"]

/-- The rule-linking block of this generation (two aliases). -/
def createRuleLinks (platform : Platform) (projectPath : Path) (fs : FS) : FS :=
  if fs.pathExists (projectPath ++ ["rules.yaml"]) then
    match platform with
    | .win32 =>
      copyAliases (projectPath ++ ["rules.yaml"]) fs
        (aliasNames.map (fun a => projectPath ++ [a]))
    | .other =>
      linkAliases true (projectPath ++ ["rules.yaml"]) fs
        (aliasNames.map (fun a => projectPath ++ [a]))
  else fs

/-- `detectProjectType` (lines 630–668): inspect `package.json` for a
`next` or `react` dependency; a file `fs.readJson` cannot parse raises
`JSON_PARSE_ERROR` (downgraded by the caller to the default type). -/
def detectProjectType (fs : FS) (projectPath : Path) : Except InstallerError String :=
  if fs.pathExists (projectPath ++ ["package.json"]) then
    match fs.readFileFollow (projectPath ++ ["package.json"]) with
    | some (.manifest deps devDeps) =>
      if deps.any (fun d => d.1 = "next") || devDeps.any (fun d => d.1 = "next") then
        .ok "next"
      else if deps.any (fun d => d.1 = "react") || devDeps.any (fun d => d.1 = "react") then
        .ok "react"
      else .ok "default"
    | _ => .error ⟨.JSON_PARSE_ERROR, []⟩
  else .ok "default"

/-- The per-file loop of this generation's `copyTemplateFiles` (lines
598–621): skip existing destinations in preserve mode, otherwise create
the parent directory and copy; no skip logging. -/
def copyLoop (targetPath : Path) (preserveExisting : Bool) : Template → FS → FS
  | [], fs => fs
  | tf :: rest, fs =>
    if preserveExisting && fs.pathExists (targetPath ++ tf.1) then
      copyLoop targetPath preserveExisting rest fs
    else
      copyLoop targetPath preserveExisting rest
        ((fs.ensureDir (targetPath ++ tf.1).dropLast).setEntry
          (targetPath ++ tf.1) (.file tf.2))

/-- `copyTemplateFiles` of this generation (lines 558–622): pick the
template for the requested type from the bundled registry, fall back to
`default`, fail with `TEMPLATE_NOT_FOUND` when neither exists, then run
the loop. -/
def copyTemplateFiles (templates : List (String × Template)) (targetPath : Path)
    (templateType : String) (preserveExisting : Bool) (fs : FS) :
    Except InstallerError FS :=
  let lookupT := fun t => templates.findSome? (fun x => if x.1 = t then some x.2 else none)
  let actual := match lookupT templateType with
    | some tpl => some tpl
    | none => lookupT "default"
  match actual with
  | none => .error ⟨.TEMPLATE_NOT_FOUND, []⟩
  | some tpl => .ok (copyLoop targetPath preserveExisting tpl fs)

/-- `addToProject` of this generation (lines 459–549): reject a
non-directory working directory with `INVALID_PROJECT_DIR` (the spec's
`InvalidTarget` kind) before any mutation — an `fs.stat` failure becomes
`FS_ERROR` — then detect the project type (errors downgraded to
`default`), ensure the four scaffold directories, copy with preservation
(a copy error surfaces as `TEMPLATE_COPY_FAILED`), and link the two alias
dotfiles unless suppressed. -/
def addToProject (platform : Platform) (templates : List (String × Template))
    (cwd : Path) (skipSymlink : Bool) (fs : FS) : RunOut :=
  match fs.statIsDir cwd with
  | none => ⟨.error ⟨.FS_ERROR, []⟩, fs, []⟩
  | some false => ⟨.error ⟨.INVALID_PROJECT_DIR, []⟩, fs, []⟩
  | some true =>
    let projectType := match detectProjectType fs cwd with
      | .ok t => t
      | .error _ => "default"
    let fs1 := ensureScaffoldDirs cwd fs
    match copyTemplateFiles templates cwd projectType true fs1 with
    | .error _ => ⟨.error ⟨.TEMPLATE_COPY_FAILED, []⟩, fs1, []⟩
    | .ok fs2 =>
      let fs3 := if skipSymlink then fs2 else createRuleLinks platform cwd fs2
      ⟨.ok cwd, fs3, []⟩

end InstallerStat

/-!
The installer generation whose copy loop special-cases `package.json`
(third listing of src/lib/installer.js; copy loop at lines 1031–1084).
-/

namespace InstallerPkg

/-- The console output of this generation's copy loop. -/
inductive LogEvent where
  | skippedExisting (rel : Path)
  | manifestSummary (deps devDeps : List (String × String))
  | manifestSkipOnly
deriving DecidableEq

/-- The copy loop of this generation's `copyTemplateFiles` (lines
1031–1084): a template `package.json` whose destination already exists in
preserve mode is skipped and a summary of the dependencies and
devDependencies it declares is printed (`manifestSummary`; only the skip
notice appears when `fs.readJson` fails, `manifestSkipOnly`); other
existing destinations are skipped with a VERBOSE notice; everything else
is copied. -/
def copyTemplateFiles (targetPath : Path) (preserveExisting : Bool) :
    Template → FS → FS × List LogEvent
  | [], fs => (fs, [])
  | tf :: rest, fs =>
    if tf.1.getLast? = some "package.json" && preserveExisting &&
        fs.pathExists (targetPath ++ tf.1) then
      ((copyTemplateFiles targetPath preserveExisting rest fs).1,
        (match tf.2 with
          | .manifest deps devDeps => LogEvent.manifestSummary deps devDeps
          | .raw _ => LogEvent.manifestSkipOnly) ::
          (copyTemplateFiles targetPath preserveExisting rest fs).2)
    else if preserveExisting && fs.pathExists (targetPath ++ tf.1) then
      ((copyTemplateFiles targetPath preserveExisting rest fs).1,
        LogEvent.skippedExisting tf.1 ::
          (copyTemplateFiles targetPath preserveExisting rest fs).2)
    else
      copyTemplateFiles targetPath preserveExisting rest
        ((fs.ensureDir (targetPath ++ tf.1).dropLast).setEntry
          (targetPath ++ tf.1) (.file tf.2))

end InstallerPkg

/-!
Concrete fixtures used by the counterexamples and witnesses below.
-/

/-- A current working directory for the create flow. -/
def homeDir : Path := ["home", "user"]

/-- A filesystem holding only the (empty) working directory. -/
def fsEmptyHome : FS := ⟨[], [["home"], ["home", "user"]]⟩

/-- A project directory `p` that already holds a user-written
`.windsurfrules` file. -/
def fsAliasSeeded : FS :=
  ⟨[(["p", ".windsurfrules"], .file (.raw "CUSTOM"))], [["p"]]⟩

/-- A one-file template whose `rules.yaml` content differs from the
seeded alias content. -/
def rulesOnlyTemplate : Template := [(["rules.yaml"], .raw "RULES")]

/-- A project directory `p` that already holds a user-written
`.cursorrules` file. -/
def fsCursorSeeded : FS :=
  ⟨[(["p", ".cursorrules"], .file (.raw "MINE"))], [["p"]]⟩

/-- The state just before alias linking: `rules.yaml` in place and a
user-written `.cursorrules` file to be preserved. -/
def fsLinkStage : FS :=
  ⟨[(["p", "rules.yaml"], .file (.raw "RULES")),
    (["p", ".cursorrules"], .file (.raw "KEEP"))], [["p"]]⟩

/-- A destination directory that exists and holds one unrelated file. -/
def fsProjNonempty : FS :=
  ⟨[(["home", "user", "proj", "notes.txt"], .file (.raw "n"))],
   [["home"], ["home", "user"], ["home", "user", "proj"]]⟩

/-- A filesystem in which the path used as the working directory is a
regular file. -/
def fsCwdIsFile : FS := ⟨[(["f"], .file (.raw "iamafile"))], []⟩

/-- A project that already has a `package.json` manifest, for the
add-to-existing flow. -/
def fsWithManifest : FS :=
  ⟨[(["p", "package.json"], .file (.manifest [("left", "1.0.0")] []))], [["p"]]⟩

/-- A template carrying a `package.json` manifest. -/
def manifestTemplate : Template :=
  [(["package.json"], .manifest [("next", "12.0.0")] [("jest", "29.0.0")]),
   (["rules.yaml"], .raw "RULES")]

/-!
Theorems.  General facts about the filesystem model first, then the
per-claim results.
-/

theorem findSome?_filter_ne (l : List (Path × Entry)) (p q : Path) (h : ¬ q = p) :
    (l.filter (fun x => ¬ x.1 = p)).findSome? (fun x => if x.1 = q then some x.2 else none)
      = l.findSome? (fun x => if x.1 = q then some x.2 else none) := by
  induction l with
  | nil => simp
  | cons x xs ih =>
    by_cases hx : x.1 = p
    · rw [List.filter_cons_of_neg (by simp [hx])]
      rw [List.findSome?_cons]
      have hxq : (if x.1 = q then some x.2 else none) = none := by
        rw [if_neg]; rw [hx]; exact fun hq => h hq.symm
      rw [hxq, ih]
    · rw [List.filter_cons_of_pos (by simpa using hx)]
      rw [List.findSome?_cons, List.findSome?_cons]
      cases hxq : (if x.1 = q then some x.2 else none) with
      | some v => simp [hxq]
      | none => simp only [hxq]; exact ih

theorem lookup_setEntry (fs : FS) (p : Path) (e : Entry) (q : Path) :
    (fs.setEntry p e).lookup q = if q = p then some e else fs.lookup q := by
  unfold FS.setEntry FS.lookup
  by_cases h : q = p
  · subst h; simp [List.findSome?_cons]
  · rw [if_neg h]
    simp only [List.findSome?_cons]
    have hpq : (if p = q then some e else none) = none := by
      rw [if_neg (fun hpq2 => h hpq2.symm)]
    rw [hpq]
    exact findSome?_filter_ne fs.entries p q h

theorem lookup_ensureDir (fs : FS) (p : Path) (q : Path) :
    (fs.ensureDir p).lookup q = fs.lookup q := rfl

theorem dirExists_setEntry (fs : FS) (p : Path) (e : Entry) (q : Path) :
    (fs.setEntry p e).dirExists q = fs.dirExists q := rfl

theorem dirExists_mono_ensureDir (fs : FS) (p : Path) (q : Path)
    (h : fs.dirExists q = true) : (fs.ensureDir p).dirExists q = true := by
  unfold FS.ensureDir FS.dirExists at *
  simp only [List.any_append, h, Bool.true_or]

theorem dirExists_ensureDir_of_mem (fs : FS) (p : Path) (q : Path)
    (hq : q ∈ FS.ancestors p) : (fs.ensureDir p).dirExists q = true := by
  by_cases h : fs.dirExists q = true
  · exact dirExists_mono_ensureDir fs p q h
  · unfold FS.ensureDir FS.dirExists
    simp only [List.any_append, List.any_eq_true, Bool.or_eq_true]
    right
    refine ⟨q, ?_, by simp⟩
    rw [List.mem_filter]
    refine ⟨hq, ?_⟩
    simp only [decide_eq_true_eq, FS.dirExists, List.any_eq_true, decide_eq_true_eq] at h ⊢
    exact h

theorem mem_ancestors_iff (p q : Path) :
    q ∈ FS.ancestors p ↔ ∃ n, n < p.length ∧ q = p.take (n + 1) := by
  unfold FS.ancestors
  simp only [List.mem_map, List.mem_range]
  constructor
  · rintro ⟨n, hn, rfl⟩; exact ⟨n, hn, rfl⟩
  · rintro ⟨n, hn, rfl⟩; exact ⟨n, hn, rfl⟩

theorem length_le_of_mem_ancestors {p q : Path} (h : q ∈ FS.ancestors p) :
    q.length ≤ p.length := by
  rcases (mem_ancestors_iff p q).mp h with ⟨n, hn, rfl⟩
  simp [List.length_take]

theorem mem_ancestors_append {p q : Path} (r : Path) (h : q ∈ FS.ancestors p) :
    q ∈ FS.ancestors (p ++ r) := by
  rcases (mem_ancestors_iff p q).mp h with ⟨n, hn, rfl⟩
  refine (mem_ancestors_iff (p ++ r) (p.take (n + 1))).mpr ⟨n, ?_, ?_⟩
  · simp only [List.length_append]; omega
  · rw [List.take_append_of_le_length (by omega)]

theorem not_mem_ancestors_dropLast (d : Path) : d ∉ FS.ancestors d.dropLast := by
  intro h
  have hle := length_le_of_mem_ancestors h
  rw [List.length_dropLast] at hle
  rcases (mem_ancestors_iff _ _).mp h with ⟨n, hn, hq⟩
  rw [List.length_dropLast] at hn
  omega

theorem dirExists_ensureDir_iff (fs : FS) (p : Path) (q : Path) :
    (fs.ensureDir p).dirExists q = true ↔
      (fs.dirExists q = true ∨ q ∈ FS.ancestors p) := by
  constructor
  · unfold FS.ensureDir FS.dirExists
    simp only [List.any_append, Bool.or_eq_true, List.any_eq_true, decide_eq_true_eq]
    rintro (h | ⟨r, hr, rfl⟩)
    · exact Or.inl h
    · exact Or.inr (List.mem_filter.mp hr).1
  · rintro (h | h)
    · exact dirExists_mono_ensureDir fs p q h
    · exact dirExists_ensureDir_of_mem fs p q h

theorem ensureDir_eq_self (fs : FS) (p : Path)
    (h : ∀ q ∈ FS.ancestors p, fs.dirExists q = true) : fs.ensureDir p = fs := by
  unfold FS.ensureDir
  have hfil : (FS.ancestors p).filter (fun q => ¬ fs.dirExists q) = [] := by
    rw [List.filter_eq_nil_iff]
    intro a ha
    simp [h a ha]
  rw [hfil, List.append_nil]

theorem extends_refl (fs : FS) : fs.Extends fs :=
  ⟨fun _ _ h => Or.inl h, fun _ h => h, fun _ h => h⟩

theorem extends_trans {fs3 fs2 fs : FS} (h32 : fs3.Extends fs2)
    (h21 : fs2.Extends fs) : fs3.Extends fs := by
  refine ⟨?_, fun q hq => h32.2.1 q (h21.2.1 q hq),
    fun q hq => h32.2.2 q (h21.2.2 q hq)⟩
  intro q e hq
  rcases h21.1 q e hq with h | ⟨d, hd⟩
  · exact h32.1 q e h
  · rcases h32.1 q _ hd with h | ⟨d2, hd2⟩
    · exact Or.inr ⟨d, h⟩
    · exact Or.inr ⟨d2, hd2⟩

theorem pathExists_of_lookup_file {fs : FS} {q : Path} {d : FileData}
    (h : fs.lookup q = some (.file d)) : fs.pathExists q = true := by
  unfold FS.pathExists
  rw [h]

theorem extends_setEntry_file (fs : FS) (p : Path) (d : FileData) :
    (fs.setEntry p (.file d)).Extends fs := by
  refine ⟨?_, ?_, ?_⟩
  · intro q e hq
    rw [lookup_setEntry]
    by_cases h : q = p
    · exact Or.inr ⟨d, by rw [if_pos h]⟩
    · exact Or.inl (by rw [if_neg h]; exact hq)
  · intro q hq
    rwa [dirExists_setEntry]
  · intro q hq
    unfold FS.pathExists at hq ⊢
    rw [lookup_setEntry]
    by_cases h : q = p
    · simp [if_pos h]
    · rw [if_neg h]
      cases hlq : fs.lookup q with
      | none =>
        simp only [hlq] at hq
        simp only [dirExists_setEntry]
        exact hq
      | some e =>
        cases e with
        | file d2 => simp
        | symlink b t =>
          simp only [hlq] at hq
          simp only [lookup_setEntry, dirExists_setEntry]
          by_cases ht : t = p
          · simp [if_pos ht]
          · rw [if_neg ht]
            exact hq

theorem extends_setEntry_fresh (fs : FS) (p : Path) (e0 : Entry)
    (h1 : fs.lookup p = none) (h2 : fs.dirExists p = false) :
    (fs.setEntry p e0).Extends fs := by
  refine ⟨?_, ?_, ?_⟩
  · intro q e hq
    rw [lookup_setEntry]
    by_cases h : q = p
    · rw [h, h1] at hq; cases hq
    · exact Or.inl (by rw [if_neg h]; exact hq)
  · intro q hq
    rwa [dirExists_setEntry]
  · intro q hq
    unfold FS.pathExists at hq ⊢
    rw [lookup_setEntry]
    by_cases h : q = p
    · rw [h, h1] at hq
      simp only [h, h2] at hq
      cases hq
    · rw [if_neg h]
      cases hlq : fs.lookup q with
      | none =>
        simp only [hlq] at hq
        simp only [dirExists_setEntry]
        exact hq
      | some e =>
        cases e with
        | file d2 => simp
        | symlink b t =>
          simp only [hlq] at hq
          simp only [lookup_setEntry, dirExists_setEntry]
          by_cases ht : t = p
          · rw [ht, h1] at hq
            simp only [ht, h2] at hq
            simp at hq
          · rw [if_neg ht]
            exact hq

theorem extends_ensureDir (fs : FS) (p : Path) : (fs.ensureDir p).Extends fs := by
  refine ⟨fun q e hq => Or.inl (by rwa [lookup_ensureDir]),
    fun q hq => dirExists_mono_ensureDir fs p q hq, ?_⟩
  intro q hq
  unfold FS.pathExists at hq ⊢
  rw [lookup_ensureDir]
  cases hlq : fs.lookup q with
  | none =>
    simp only [hlq] at hq
    exact dirExists_mono_ensureDir fs p q hq
  | some e =>
    cases e with
    | file d => simp
    | symlink b t =>
      simp only [hlq] at hq
      show (((fs.ensureDir p).lookup t).isSome || (fs.ensureDir p).dirExists t) = true
      rw [lookup_ensureDir]
      rcases Bool.or_eq_true_iff.mp hq with h | h
      · rw [h]
        simp
      · rw [dirExists_mono_ensureDir fs p t h]
        simp

theorem extends_ensureSymlink (fs : FS) (b : Bool) (src dst : Path) :
    ((fs.ensureSymlink b src dst).2).Extends fs := by
  unfold FS.ensureSymlink
  split
  · exact extends_refl fs
  · split
    · exact extends_refl fs
    · split
      · exact extends_ensureDir fs _
      · rename_i h1 h2 h3
        refine extends_trans (extends_setEntry_fresh _ dst _ ?_ ?_)
          (extends_ensureDir fs dst.dropLast)
        · cases ho : (fs.ensureDir dst.dropLast).lookup dst with
          | none => rfl
          | some e => exact absurd (by rw [ho]; rfl) h3
        · have hnone : fs.lookup dst = none := by
            cases hl : fs.lookup dst with
            | none => rfl
            | some e => exact absurd (by rw [lookup_ensureDir, hl]; rfl) h3
          have hfsdir : fs.dirExists dst = false := by
            have hpe : fs.pathExists dst = fs.dirExists dst := by
              unfold FS.pathExists
              rw [hnone]
            rcases Bool.eq_false_or_eq_true (fs.dirExists dst) with h | h
            · exact absurd (by rw [hpe, h]) h1
            · exact h
          rcases Bool.eq_false_or_eq_true
            ((fs.ensureDir dst.dropLast).dirExists dst) with h | h
          · exfalso
            rcases (dirExists_ensureDir_iff fs dst.dropLast dst).mp h with hc | hc
            · rw [hfsdir] at hc; cases hc
            · exact not_mem_ancestors_dropLast dst hc
          · exact h

theorem ensureSymlink_preserves_file (fs : FS) (b : Bool) (src dst q : Path)
    (c : FileData) (h : fs.lookup q = some (.file c)) :
    ((fs.ensureSymlink b src dst).2).lookup q = some (.file c) := by
  unfold FS.ensureSymlink
  split
  · exact h
  · split
    · exact h
    · split
      · show (fs.ensureDir dst.dropLast).lookup q = some (.file c)
        rwa [lookup_ensureDir]
      · rename_i h1 h2 h3
        show ((fs.ensureDir dst.dropLast).setEntry dst _).lookup q = some (.file c)
        rw [lookup_setEntry]
        by_cases hq : q = dst
        · exfalso
          apply h3
          rw [lookup_ensureDir, ← hq, h]
          rfl
        · rwa [if_neg hq, lookup_ensureDir]

theorem ensureSymlink_lookup (fs : FS) (b : Bool) (src dst q : Path) :
    ((fs.ensureSymlink b src dst).2).lookup q = fs.lookup q ∨
      (q = dst ∧
        ((fs.ensureSymlink b src dst).2).lookup q = some (.symlink b src)) := by
  unfold FS.ensureSymlink
  split
  · exact Or.inl rfl
  · split
    · exact Or.inl rfl
    · split
      · exact Or.inl (lookup_ensureDir fs dst.dropLast q)
      · by_cases hq : q = dst
        · refine Or.inr ⟨hq, ?_⟩
          show ((fs.ensureDir dst.dropLast).setEntry dst _).lookup q = _
          rw [lookup_setEntry, if_pos hq]
        · refine Or.inl ?_
          show ((fs.ensureDir dst.dropLast).setEntry dst _).lookup q = _
          rw [lookup_setEntry, if_neg hq, lookup_ensureDir]

theorem extends_linkAliases (b : Bool) (src : Path) (dsts : List Path) :
    ∀ fs : FS, (linkAliases b src fs dsts).Extends fs := by
  induction dsts with
  | nil => exact fun fs => extends_refl fs
  | cons d rest ih =>
    intro fs
    have hES := extends_ensureSymlink fs b src d
    unfold linkAliases
    rcases hfs : fs.ensureSymlink b src d with ⟨flag, fs1⟩
    rw [hfs] at hES
    cases flag
    · exact hES
    · exact extends_trans (ih fs1) hES

theorem linkAliases_preserves_file (b : Bool) (src : Path) (dsts : List Path)
    (q : Path) (c : FileData) :
    ∀ fs : FS, fs.lookup q = some (.file c) →
      (linkAliases b src fs dsts).lookup q = some (.file c) := by
  induction dsts with
  | nil => exact fun fs h => h
  | cons d rest ih =>
    intro fs h
    have hP := ensureSymlink_preserves_file fs b src d q c h
    unfold linkAliases
    rcases hfs : fs.ensureSymlink b src d with ⟨flag, fs1⟩
    rw [hfs] at hP
    cases flag
    · exact hP
    · exact ih fs1 hP

theorem linkAliases_lookup (b : Bool) (src : Path) (dsts : List Path) (q : Path) :
    ∀ fs : FS, (linkAliases b src fs dsts).lookup q = fs.lookup q ∨
      (q ∈ dsts ∧ (linkAliases b src fs dsts).lookup q = some (.symlink b src)) := by
  induction dsts with
  | nil => exact fun fs => Or.inl rfl
  | cons d rest ih =>
    intro fs
    have hL := ensureSymlink_lookup fs b src d q
    unfold linkAliases
    rcases hfs : fs.ensureSymlink b src d with ⟨flag, fs1⟩
    rw [hfs] at hL
    cases flag
    · rcases hL with h | ⟨rfl, h⟩
      · exact Or.inl h
      · exact Or.inr ⟨List.mem_cons_self _ _, h⟩
    · rcases ih fs1 with h | ⟨hmem, h⟩
      · rcases hL with h2 | ⟨rfl, h2⟩
        · exact Or.inl (h.trans h2)
        · exact Or.inr ⟨List.mem_cons_self _ _, h.trans h2⟩
      · exact Or.inr ⟨List.mem_cons_of_mem d hmem, h⟩

theorem extends_copyAliases (src : Path) (dsts : List Path) :
    ∀ fs : FS, (copyAliases src fs dsts).Extends fs := by
  induction dsts with
  | nil => exact fun fs => extends_refl fs
  | cons d rest ih =>
    intro fs
    unfold copyAliases
    cases hrd : fs.readFileFollow src with
    | some data => exact extends_trans (ih _) (extends_setEntry_file fs d data)
    | none => exact extends_refl fs

theorem copyAliases_lookup (src : Path) (dsts : List Path) (q : Path) :
    ∀ fs : FS, (copyAliases src fs dsts).lookup q = fs.lookup q ∨
      (q ∈ dsts ∧ ∃ d, (copyAliases src fs dsts).lookup q = some (.file d)) := by
  induction dsts with
  | nil => exact fun fs => Or.inl rfl
  | cons d rest ih =>
    intro fs
    unfold copyAliases
    cases hrd : fs.readFileFollow src with
    | none => exact Or.inl rfl
    | some data =>
      rcases ih (fs.setEntry d (.file data)) with h | ⟨hmem, h⟩
      · rw [h, lookup_setEntry]
        by_cases hq : q = d
        · exact Or.inr ⟨hq ▸ List.mem_cons_self _ _, data, by rw [if_pos hq]⟩
        · exact Or.inl (by rw [if_neg hq])
      · exact Or.inr ⟨List.mem_cons_of_mem d hmem, h⟩

theorem extends_createRuleLinks (platform : Platform) (pp : Path) (fs : FS) :
    (Installer.createRuleLinks platform pp fs).Extends fs := by
  cases platform <;> unfold Installer.createRuleLinks <;> split
  · exact extends_copyAliases _ _ fs
  · exact extends_refl fs
  · exact extends_linkAliases _ _ _ fs
  · exact extends_refl fs

theorem createRuleLinks_lookup (platform : Platform) (pp : Path) (fs : FS)
    (q : Path) (h : (Installer.createRuleLinks platform pp fs).lookup q ≠ fs.lookup q) :
    ∃ a ∈ Installer.aliasNames, q = pp ++ [a] := by
  cases platform
  case win32 =>
    unfold Installer.createRuleLinks at h
    by_cases hg : fs.pathExists (pp ++ ["rules.yaml"]) = true
    · rw [if_pos hg] at h
      rcases copyAliases_lookup (pp ++ ["rules.yaml"])
        (Installer.aliasNames.map (fun a => pp ++ [a])) q fs with h2 | ⟨hmem, _⟩
      · exact absurd h2 h
      · rcases List.mem_map.mp hmem with ⟨a, ha, rfl⟩
        exact ⟨a, ha, rfl⟩
    · rw [if_neg hg] at h
      exact absurd rfl h
  case other =>
    unfold Installer.createRuleLinks at h
    by_cases hg : fs.pathExists (pp ++ ["rules.yaml"]) = true
    · rw [if_pos hg] at h
      rcases linkAliases_lookup true (pp ++ ["rules.yaml"])
        (Installer.aliasNames.map (fun a => pp ++ [a])) q fs with h2 | ⟨hmem, _⟩
      · exact absurd h2 h
      · rcases List.mem_map.mp hmem with ⟨a, ha, rfl⟩
        exact ⟨a, ha, rfl⟩
    · rw [if_neg hg] at h
      exact absurd rfl h

theorem createRuleLinks_other_preserves_file (pp : Path) (fs : FS) (q : Path)
    (c : FileData) (h : fs.lookup q = some (.file c)) :
    (Installer.createRuleLinks .other pp fs).lookup q = some (.file c) := by
  unfold Installer.createRuleLinks
  split
  · exact linkAliases_preserves_file _ _ _ q c fs h
  · exact h

theorem copy_extends (targetPath : Path) (pres : Bool) (template : Template) :
    ∀ fs : FS,
      ((Installer.copyTemplateFiles targetPath pres template fs).1).Extends fs := by
  induction template with
  | nil => exact fun fs => extends_refl fs
  | cons tf rest ih =>
    intro fs
    unfold Installer.copyTemplateFiles
    split
    · exact ih fs
    · exact extends_trans (ih _)
        (extends_trans (extends_setEntry_file _ _ _) (extends_ensureDir fs _))

theorem copy_frame (targetPath : Path) (pres : Bool) (template : Template) (q : Path) :
    ∀ fs : FS,
      ((Installer.copyTemplateFiles targetPath pres template fs).1).lookup q
          ≠ fs.lookup q →
        ∃ tf ∈ template, q = targetPath ++ tf.1 := by
  induction template with
  | nil => intro fs h; exact absurd rfl h
  | cons tf rest ih =>
    intro fs h
    unfold Installer.copyTemplateFiles at h
    revert h
    split
    · intro h
      rcases ih fs h with ⟨tf2, hmem, rfl⟩
      exact ⟨tf2, List.mem_cons_of_mem tf hmem, rfl⟩
    · intro h
      by_cases hq : q = targetPath ++ tf.1
      · exact ⟨tf, List.mem_cons_self tf rest, hq⟩
      · have hstep :
            ((fs.ensureDir (targetPath ++ tf.1).dropLast).setEntry
              (targetPath ++ tf.1) (.file tf.2)).lookup q = fs.lookup q := by
          rw [lookup_setEntry, if_neg hq, lookup_ensureDir]
        by_cases h2 :
            ((Installer.copyTemplateFiles targetPath pres rest
              ((fs.ensureDir (targetPath ++ tf.1).dropLast).setEntry
                (targetPath ++ tf.1) (.file tf.2))).1).lookup q
              = ((fs.ensureDir (targetPath ++ tf.1).dropLast).setEntry
                (targetPath ++ tf.1) (.file tf.2)).lookup q
        · exact absurd (h2.trans hstep) h
        · rcases ih _ h2 with ⟨tf2, hmem, rfl⟩
          exact ⟨tf2, List.mem_cons_of_mem tf hmem, rfl⟩

theorem copy_preserves_file (targetPath : Path) (template : Template) (q : Path)
    (c : FileData) :
    ∀ fs : FS, fs.lookup q = some (.file c) →
      ((Installer.copyTemplateFiles targetPath true template fs).1).lookup q
        = some (.file c) := by
  induction template with
  | nil => exact fun fs h => h
  | cons tf rest ih =>
    intro fs h
    unfold Installer.copyTemplateFiles
    split
    · exact ih fs h
    · rename_i hcond
      have hne : ¬ q = targetPath ++ tf.1 := by
        intro hq
        apply hcond
        simp only [Bool.true_and]
        rw [← hq]
        exact pathExists_of_lookup_file h
      exact ih _ (by rw [lookup_setEntry, if_neg hne, lookup_ensureDir]; exact h)

theorem copy_targets_exist (targetPath : Path) (template : Template) :
    ∀ fs : FS, ∀ tf ∈ template,
      ((Installer.copyTemplateFiles targetPath true template fs).1).pathExists
        (targetPath ++ tf.1) = true := by
  induction template with
  | nil => intro fs tf h; cases h
  | cons tf0 rest ih =>
    intro fs tf hmem
    unfold Installer.copyTemplateFiles
    rcases List.mem_cons.mp hmem with rfl | hmem2
    · split
      · rename_i hcond
        have hex : fs.pathExists (targetPath ++ tf.1) = true := by
          simpa using hcond
        exact (copy_extends targetPath true rest fs).2.2 _ hex
      · have hex :
            ((fs.ensureDir (targetPath ++ tf.1).dropLast).setEntry
              (targetPath ++ tf.1) (.file tf.2)).pathExists (targetPath ++ tf.1)
              = true :=
          pathExists_of_lookup_file (by rw [lookup_setEntry, if_pos rfl])
        exact (copy_extends targetPath true rest _).2.2 _ hex
    · split
      · exact ih fs tf hmem2
      · exact ih _ tf hmem2

theorem copy_skip_all (targetPath : Path) (template : Template) :
    ∀ fs : FS, (∀ tf ∈ template, fs.pathExists (targetPath ++ tf.1) = true) →
      Installer.copyTemplateFiles targetPath true template fs
        = (fs, template.map (fun tf => tf.1)) := by
  induction template with
  | nil => intro fs _; rfl
  | cons tf rest ih =>
    intro fs h
    unfold Installer.copyTemplateFiles
    have hc : (true && fs.pathExists (targetPath ++ tf.1)) = true := by
      simp [h tf (List.mem_cons_self tf rest)]
    rw [if_pos hc, ih fs (fun tf2 h2 => h tf2 (List.mem_cons_of_mem tf h2))]
    rfl

theorem linkAliases_cons (b : Bool) (src : Path) (fs : FS) (d : Path)
    (rest : List Path) :
    linkAliases b src fs (d :: rest)
      = match fs.ensureSymlink b src d with
        | (true, fs1) => linkAliases b src fs1 rest
        | (false, fs1) => fs1 := rfl

theorem linkAliases_idem (b : Bool) (src : Path) (dsts : List Path) :
    ∀ fs : FS,
      (∀ d ∈ dsts, ∀ q ∈ FS.ancestors d.dropLast, fs.dirExists q = true) →
      linkAliases b src (linkAliases b src fs dsts) dsts
        = linkAliases b src fs dsts := by
  induction dsts with
  | nil => intro fs _; rfl
  | cons d rest ih =>
    intro fs h
    have hED : fs.ensureDir d.dropLast = fs :=
      ensureDir_eq_self fs d.dropLast (h d (List.mem_cons_self d rest))
    by_cases h1 : fs.pathExists d = true
    · have hes : fs.ensureSymlink b src d = (true, fs) := by
        unfold FS.ensureSymlink
        rw [if_pos h1]
      simp only [linkAliases_cons, hes]
      have hexR : (linkAliases b src fs rest).pathExists d = true :=
        (extends_linkAliases b src rest fs).2.2 d h1
      have hes2 : (linkAliases b src fs rest).ensureSymlink b src d
          = (true, linkAliases b src fs rest) := by
        unfold FS.ensureSymlink
        rw [if_pos hexR]
      simp only [hes2]
      exact ih fs (fun d2 hd2 => h d2 (List.mem_cons_of_mem d hd2))
    · by_cases h2 : ((fs.lookup src).isNone && ¬ fs.dirExists src) = true
      · have hes : fs.ensureSymlink b src d = (false, fs) := by
          unfold FS.ensureSymlink
          rw [if_neg h1, if_pos h2]
        simp only [linkAliases_cons, hes]
      · by_cases h3 : (fs.lookup d).isSome = true
        · have hes : fs.ensureSymlink b src d = (false, fs) := by
            unfold FS.ensureSymlink
            rw [if_neg h1, if_neg h2, hED, if_pos h3]
          simp only [linkAliases_cons, hes]
        · have hes : fs.ensureSymlink b src d
              = (true, fs.setEntry d (.symlink b src)) := by
            unfold FS.ensureSymlink
            rw [if_neg h1, if_neg h2, hED, if_neg h3]
          simp only [linkAliases_cons, hes]
          have hsrcEx :
              (((fs.setEntry d (.symlink b src)).lookup src).isSome
                || (fs.setEntry d (.symlink b src)).dirExists src) = true := by
            by_cases hsd : src = d
            · rw [lookup_setEntry, if_pos hsd]
              simp
            · rw [lookup_setEntry, if_neg hsd, dirExists_setEntry]
              by_cases hs : (fs.lookup src).isSome = true
              · simp [hs]
              · have hnone : fs.lookup src = none := by
                  cases ho : fs.lookup src with
                  | none => rfl
                  | some e => rw [ho] at hs; simp at hs
                have hdir : fs.dirExists src = true := by
                  by_cases hd2 : fs.dirExists src = true
                  · exact hd2
                  · exfalso
                    apply h2
                    rw [hnone]
                    simp [hd2]
                simp [hdir]
          have hexd : (fs.setEntry d (.symlink b src)).pathExists d = true := by
            unfold FS.pathExists
            rw [lookup_setEntry, if_pos rfl]
            exact hsrcEx
          have hexR :
              (linkAliases b src (fs.setEntry d (.symlink b src)) rest).pathExists d
                = true :=
            (extends_linkAliases b src rest _).2.2 d hexd
          have hes2 :
              (linkAliases b src (fs.setEntry d (.symlink b src)) rest).ensureSymlink
                b src d
                = (true, linkAliases b src (fs.setEntry d (.symlink b src)) rest) := by
            unfold FS.ensureSymlink
            rw [if_pos hexR]
          simp only [hes2]
          exact ih (fs.setEntry d (.symlink b src))
            (fun d2 hd2 q hq => by
              rw [dirExists_setEntry]
              exact h d2 (List.mem_cons_of_mem d hd2) q hq)

/-- C2: for every project name that passes validation, when the resolved
destination `cwd/name` exists and holds at least one entry,
`createProject` fails with `DIR_NOT_EMPTY` (the spec's
`DirectoryNotEmpty`) and the filesystem is returned exactly as it was:
no file or directory is created or modified. -/
theorem claim_C2 (platform : Platform) (template : Template) (cwd : Path)
    (projectName : String) (skipSymlink : Bool) (fs : FS) (files : List String)
    (hname : (validateNpmPackageName projectName).validForNewPackages = true)
    (hex : fs.pathExists (resolvePath cwd projectName) = true)
    (hrd : fs.readdir (resolvePath cwd projectName) = some files)
    (hne : files ≠ []) :
    Installer.createProject platform template cwd projectName skipSymlink fs
      = ⟨.error ⟨.DIR_NOT_EMPTY, []⟩, fs, []⟩ := by
  have hfe : files.isEmpty = false := by
    cases files with
    | nil => exact absurd rfl hne
    | cons a l => rfl
  simp [Installer.createProject, hname, hex, hrd, hfe]

/-- Witness for C2 at a concrete input: a destination directory holding
`notes.txt`. -/
theorem claim_C2_witness :
    Installer.createProject .other Installer.bundledNextTemplate homeDir "proj"
      false fsProjNonempty = ⟨.error ⟨.DIR_NOT_EMPTY, []⟩, fsProjNonempty, []⟩ :=
  claim_C2 .other Installer.bundledNextTemplate homeDir "proj" false fsProjNonempty
    ["notes.txt"] (by decide) (by decide) (by decide) (by decide)

/-- C5: for every name the validator rejects, `createProject` fails with
`INVALID_NAME` carrying the validator's flattened error-and-warning list,
and the filesystem is returned exactly as it was — in particular a
destination that did not exist beforehand still does not exist. -/
theorem claim_C5 (platform : Platform) (template : Template) (cwd : Path)
    (projectName : String) (skipSymlink : Bool) (fs : FS)
    (hname : (validateNpmPackageName projectName).validForNewPackages = false) :
    Installer.createProject platform template cwd projectName skipSymlink fs
      = ⟨.error ⟨.INVALID_NAME,
          (validateNpmPackageName projectName).errors ++
            (validateNpmPackageName projectName).warnings⟩, fs, []⟩ := by
  simp [Installer.createProject, hname]

/-- Witness for C5 at the spec's concrete scenario-D name `bad name!`. -/
theorem claim_C5_witness :
    Installer.createProject .other Installer.bundledNextTemplate homeDir "bad name!"
      false fsEmptyHome
      = ⟨.error ⟨.INVALID_NAME,
          (validateNpmPackageName "bad name!").errors ++
            (validateNpmPackageName "bad name!").warnings⟩, fsEmptyHome, []⟩ :=
  claim_C5 .other Installer.bundledNextTemplate homeDir "bad name!" false fsEmptyHome
    (by decide)

/-- C8: when the `fs.stat`-validating generation of `addToProject` is
invoked with a working directory that is actually a regular file, it
fails with `INVALID_PROJECT_DIR` (the spec's `InvalidTarget` kind) and
the filesystem is returned exactly as it was: no mutation happens. -/
theorem claim_C8 (platform : Platform) (templates : List (String × Template))
    (cwd : Path) (skipSymlink : Bool) (fs : FS) (data : FileData)
    (hfile : fs.lookup cwd = some (.file data)) :
    InstallerStat.addToProject platform templates cwd skipSymlink fs
      = ⟨.error ⟨.INVALID_PROJECT_DIR, []⟩, fs, []⟩ := by
  unfold InstallerStat.addToProject FS.statIsDir
  rw [hfile]

/-- Witness for C8 at a concrete input: the working directory path holds
a file. -/
theorem claim_C8_witness :
    InstallerStat.addToProject .other [("next", rulesOnlyTemplate)] ["f"] false
      fsCwdIsFile = ⟨.error ⟨.INVALID_PROJECT_DIR, []⟩, fsCwdIsFile, []⟩ :=
  claim_C8 .other [("next", rulesOnlyTemplate)] ["f"] false fsCwdIsFile
    (.raw "iamafile") (by decide)

theorem createRuleLinks_other_def (pp : Path) (fs : FS) :
    Installer.createRuleLinks .other pp fs
      = if fs.pathExists (pp ++ ["rules.yaml"]) then
          linkAliases true (pp ++ ["rules.yaml"]) fs
            (Installer.aliasNames.map (fun a => pp ++ [a]))
        else fs := rfl

theorem createRuleLinks_other_lookup_or (pp : Path) (fs : FS) (q : Path) :
    (Installer.createRuleLinks .other pp fs).lookup q = fs.lookup q ∨
      (Installer.createRuleLinks .other pp fs).lookup q
        = some (.symlink true (pp ++ ["rules.yaml"])) := by
  rw [createRuleLinks_other_def]
  split
  · rcases linkAliases_lookup true (pp ++ ["rules.yaml"])
      (Installer.aliasNames.map (fun a => pp ++ [a])) q fs with h | ⟨_, h⟩
    · exact Or.inl h
    · exact Or.inr h
  · exact Or.inl rfl

theorem lookup_ensureScaffoldDirs (cwd : Path) (fs : FS) (q : Path) :
    (ensureScaffoldDirs cwd fs).lookup q = fs.lookup q := rfl

theorem extends_ensureScaffoldDirs (cwd : Path) (fs : FS) :
    (ensureScaffoldDirs cwd fs).Extends fs :=
  extends_trans (extends_ensureDir _ _)
    (extends_trans (extends_ensureDir _ _)
      (extends_trans (extends_ensureDir _ _) (extends_ensureDir fs _)))

theorem scaffold_dirExists_cwd_ancestors (cwd : Path) (fs : FS) (q : Path)
    (hq : q ∈ FS.ancestors cwd) :
    (ensureScaffoldDirs cwd fs).dirExists q = true := by
  unfold ensureScaffoldDirs
  apply dirExists_mono_ensureDir
  apply dirExists_mono_ensureDir
  apply dirExists_mono_ensureDir
  exact dirExists_ensureDir_of_mem _ _ _ (mem_ancestors_append _ hq)

theorem scaffold_dirExists_all (cwd : Path) (fs : FS) (q : Path)
    (hq : q ∈ FS.ancestors (cwd ++ [".cursor", "rules"]) ∨
      q ∈ FS.ancestors (cwd ++ ["doc-files", "adr"]) ∨
      q ∈ FS.ancestors (cwd ++ ["memory-bank"]) ∨
      q ∈ FS.ancestors (cwd ++ ["mem-scripts"])) :
    (ensureScaffoldDirs cwd fs).dirExists q = true := by
  unfold ensureScaffoldDirs
  rcases hq with h | h | h | h
  · exact dirExists_mono_ensureDir _ _ _ (dirExists_mono_ensureDir _ _ _
      (dirExists_mono_ensureDir _ _ _ (dirExists_ensureDir_of_mem _ _ _ h)))
  · exact dirExists_mono_ensureDir _ _ _ (dirExists_mono_ensureDir _ _ _
      (dirExists_ensureDir_of_mem _ _ _ h))
  · exact dirExists_mono_ensureDir _ _ _ (dirExists_ensureDir_of_mem _ _ _ h)
  · exact dirExists_ensureDir_of_mem _ _ _ h

theorem ensureScaffoldDirs_eq_self (cwd : Path) (fs : FS)
    (h : ∀ q, (q ∈ FS.ancestors (cwd ++ [".cursor", "rules"]) ∨
      q ∈ FS.ancestors (cwd ++ ["doc-files", "adr"]) ∨
      q ∈ FS.ancestors (cwd ++ ["memory-bank"]) ∨
      q ∈ FS.ancestors (cwd ++ ["mem-scripts"])) → fs.dirExists q = true) :
    ensureScaffoldDirs cwd fs = fs := by
  unfold ensureScaffoldDirs
  rw [ensureDir_eq_self fs _ (fun q hq => h q (Or.inl hq))]
  rw [ensureDir_eq_self fs _ (fun q hq => h q (Or.inr (Or.inl hq)))]
  rw [ensureDir_eq_self fs _ (fun q hq => h q (Or.inr (Or.inr (Or.inl hq))))]
  rw [ensureDir_eq_self fs _ (fun q hq => h q (Or.inr (Or.inr (Or.inr hq))))]

theorem createRuleLinks_other_idem (cwd : Path) (fs : FS)
    (h : ∀ q ∈ FS.ancestors cwd, fs.dirExists q = true) :
    Installer.createRuleLinks .other cwd (Installer.createRuleLinks .other cwd fs)
      = Installer.createRuleLinks .other cwd fs := by
  by_cases hg : fs.pathExists (cwd ++ ["rules.yaml"]) = true
  · have h1 : Installer.createRuleLinks .other cwd fs
        = linkAliases true (cwd ++ ["rules.yaml"]) fs
          (Installer.aliasNames.map (fun a => cwd ++ [a])) := by
      rw [createRuleLinks_other_def, if_pos hg]
    rw [h1]
    have hg2 : (linkAliases true (cwd ++ ["rules.yaml"]) fs
        (Installer.aliasNames.map (fun a => cwd ++ [a]))).pathExists
          (cwd ++ ["rules.yaml"]) = true :=
      (extends_linkAliases _ _ _ fs).2.2 _ hg
    rw [createRuleLinks_other_def, if_pos hg2]
    exact linkAliases_idem true (cwd ++ ["rules.yaml"])
      (Installer.aliasNames.map (fun a => cwd ++ [a])) fs
      (fun d hd q hq => by
        rcases List.mem_map.mp hd with ⟨a, _, rfl⟩
        have hdl : (cwd ++ [a]).dropLast = cwd := by simp
        rw [hdl] at hq
        exact h q hq)
  · have h1 : Installer.createRuleLinks .other cwd fs = fs := by
      rw [createRuleLinks_other_def, if_neg hg]
    rw [h1, h1]

theorem addToProject_other_preserves_file (template : Template) (cwd : Path)
    (skipSymlink : Bool) (fs : FS) (p : Path) (c : FileData)
    (h : fs.lookup p = some (.file c)) :
    (Installer.addToProject .other template cwd skipSymlink fs).fs.lookup p
      = some (.file c) := by
  cases skipSymlink
  case false =>
    exact createRuleLinks_other_preserves_file cwd _ p c
      (copy_preserves_file cwd template p c fs h)
  case true =>
    exact copy_preserves_file cwd template p c fs h

theorem copy_lookup_no_target (targetPath : Path) (pres : Bool)
    (template : Template) (q : Path)
    (hall : ∀ tf ∈ template, ¬ q = targetPath ++ tf.1) (fs : FS) :
    ((Installer.copyTemplateFiles targetPath pres template fs).1).lookup q
      = fs.lookup q := by
  by_cases h : ((Installer.copyTemplateFiles targetPath pres template fs).1).lookup q
      = fs.lookup q
  · exact h
  · rcases copy_frame targetPath pres template q fs h with ⟨tf, hmem, rfl⟩
    exact absurd rfl (hall tf hmem)

theorem addToProject_run1_targets (template : Template) (cwd : Path)
    (skipSymlink : Bool) (fs : FS) :
    ∀ tf ∈ template,
      (Installer.addToProject .other template cwd skipSymlink fs).fs.pathExists
        (cwd ++ tf.1) = true := by
  intro tf hmem
  have hA := copy_targets_exist cwd template fs tf hmem
  cases skipSymlink
  case false =>
    exact (extends_createRuleLinks .other cwd _).2.2 _
      ((extends_ensureScaffoldDirs cwd _).2.2 _ hA)
  case true =>
    exact (extends_ensureScaffoldDirs cwd _).2.2 _ hA

theorem addToProject_second_copy (template : Template) (cwd : Path)
    (skipSymlink : Bool) (fs : FS) :
    Installer.copyTemplateFiles cwd true template
        (Installer.addToProject .other template cwd skipSymlink fs).fs
      = ((Installer.addToProject .other template cwd skipSymlink fs).fs,
         template.map (fun tf => tf.1)) :=
  copy_skip_all cwd template _ (addToProject_run1_targets template cwd skipSymlink fs)

theorem addToProject_scaffold_dirs (template : Template) (cwd : Path)
    (skipSymlink : Bool) (fs : FS) :
    ∀ q, (q ∈ FS.ancestors (cwd ++ [".cursor", "rules"]) ∨
      q ∈ FS.ancestors (cwd ++ ["doc-files", "adr"]) ∨
      q ∈ FS.ancestors (cwd ++ ["memory-bank"]) ∨
      q ∈ FS.ancestors (cwd ++ ["mem-scripts"])) →
      (Installer.addToProject .other template cwd skipSymlink fs).fs.dirExists q
        = true := by
  intro q hq
  have hB := scaffold_dirExists_all cwd
    (Installer.copyTemplateFiles cwd true template fs).1 q hq
  cases skipSymlink
  case true => exact hB
  case false => exact (extends_createRuleLinks .other cwd _).2.1 q hB

theorem addToProject_idem (template : Template) (cwd : Path)
    (skipSymlink : Bool) (fs : FS) :
    (Installer.addToProject .other template cwd skipSymlink
        (Installer.addToProject .other template cwd skipSymlink fs).fs).fs
      = (Installer.addToProject .other template cwd skipSymlink fs).fs := by
  have hcopy := addToProject_second_copy template cwd skipSymlink fs
  have hscaf : ensureScaffoldDirs cwd
      (Installer.addToProject .other template cwd skipSymlink fs).fs
        = (Installer.addToProject .other template cwd skipSymlink fs).fs :=
    ensureScaffoldDirs_eq_self cwd _
      (fun q hq => addToProject_scaffold_dirs template cwd skipSymlink fs q hq)
  cases skipSymlink
  case true =>
    show ensureScaffoldDirs cwd (Installer.copyTemplateFiles cwd true template
      (Installer.addToProject .other template cwd true fs).fs).1 = _
    rw [hcopy]
    exact hscaf
  case false =>
    show Installer.createRuleLinks .other cwd
      (ensureScaffoldDirs cwd (Installer.copyTemplateFiles cwd true template
        (Installer.addToProject .other template cwd false fs).fs).1) = _
    rw [hcopy]
    show Installer.createRuleLinks .other cwd
      (ensureScaffoldDirs cwd (Installer.addToProject .other template cwd false fs).fs)
        = _
    rw [hscaf]
    show Installer.createRuleLinks .other cwd (Installer.createRuleLinks .other cwd
      (ensureScaffoldDirs cwd (Installer.copyTemplateFiles cwd true template fs).1))
        = Installer.createRuleLinks .other cwd
          (ensureScaffoldDirs cwd (Installer.copyTemplateFiles cwd true template fs).1)
    exact createRuleLinks_other_idem cwd _
      (fun q hq => scaffold_dirExists_cwd_ancestors cwd _ q hq)

theorem createProjectTail_frame (platform : Platform) (template : Template)
    (pp : Path) (skipSymlink : Bool) (fs : FS) (q : Path)
    (h : (Installer.createProjectTail platform template pp skipSymlink fs).fs.lookup q
      ≠ fs.lookup q) :
    (∃ tf ∈ template, q = pp ++ tf.1) ∨
      (∃ a ∈ Installer.aliasNames, q = pp ++ [a]) := by
  cases skipSymlink
  case true => exact Or.inl (copy_frame pp false template q fs h)
  case false =>
    by_cases h2 : (Installer.createRuleLinks platform pp
        (Installer.copyTemplateFiles pp false template fs).1).lookup q
        = ((Installer.copyTemplateFiles pp false template fs).1).lookup q
    · exact Or.inl (copy_frame pp false template q fs (fun hc => h (h2.trans hc)))
    · exact Or.inr (createRuleLinks_lookup platform pp _ q h2)

theorem addToProject_frame (platform : Platform) (template : Template)
    (cwd : Path) (skipSymlink : Bool) (fs : FS) (q : Path)
    (h : (Installer.addToProject platform template cwd skipSymlink fs).fs.lookup q
      ≠ fs.lookup q) :
    (∃ tf ∈ template, q = cwd ++ tf.1) ∨
      (∃ a ∈ Installer.aliasNames, q = cwd ++ [a]) := by
  cases skipSymlink
  case true => exact Or.inl (copy_frame cwd true template q fs h)
  case false =>
    by_cases h2 : (Installer.createRuleLinks platform cwd
        (ensureScaffoldDirs cwd (Installer.copyTemplateFiles cwd true template fs).1)).lookup q
        = (ensureScaffoldDirs cwd
            (Installer.copyTemplateFiles cwd true template fs).1).lookup q
    · exact Or.inl (copy_frame cwd true template q fs (fun hc => h (h2.trans hc)))
    · exact Or.inr (createRuleLinks_lookup platform cwd _ q h2)

/-- C1 (counterexample): on Windows, `addToProject` overwrites a
destination file that existed before the run — the pre-existing
`.cursorrules` file changes from `MINE` to the copied `rules.yaml`
content — so preservation does not hold for every pre-existing file. -/
theorem claim_C1_counterexample :
    fsCursorSeeded.lookup ["p", ".cursorrules"] = some (.file (.raw "MINE")) ∧
    (Installer.addToProject .win32 rulesOnlyTemplate ["p"] false
        fsCursorSeeded).fs.lookup ["p", ".cursorrules"]
      = some (.file (.raw "RULES")) := by
  decide

/-- C1 (amended): on non-Windows platforms, every regular file that
exists before `addToProject` runs is byte-for-byte unchanged afterwards;
moreover a second run on the result changes nothing at all and its copy
loop reports every template-relative path as skipped. -/
theorem claim_C1_amended (template : Template) (cwd : Path) (skipSymlink : Bool)
    (fs : FS) :
    (∀ p c, fs.lookup p = some (.file c) →
      (Installer.addToProject .other template cwd skipSymlink fs).fs.lookup p
        = some (.file c)) ∧
    (Installer.addToProject .other template cwd skipSymlink
        (Installer.addToProject .other template cwd skipSymlink fs).fs).fs
      = (Installer.addToProject .other template cwd skipSymlink fs).fs ∧
    (Installer.addToProject .other template cwd skipSymlink
        (Installer.addToProject .other template cwd skipSymlink fs).fs).skipped
      = template.map (fun tf => tf.1) := by
  refine ⟨fun p c h =>
    addToProject_other_preserves_file template cwd skipSymlink fs p c h,
    addToProject_idem template cwd skipSymlink fs, ?_⟩
  show (Installer.copyTemplateFiles cwd true template
    (Installer.addToProject .other template cwd skipSymlink fs).fs).2 = _
  rw [addToProject_second_copy template cwd skipSymlink fs]

/-- Witness for the amended C1 at a concrete input: the seeded
`.windsurfrules` file survives a non-Windows `addToProject` run, the
second run is a no-op, and it reports `rules.yaml` as skipped. -/
theorem claim_C1_witness :
    (Installer.addToProject .other rulesOnlyTemplate ["p"] false
        fsAliasSeeded).fs.lookup ["p", ".windsurfrules"]
      = some (.file (.raw "CUSTOM")) ∧
    (Installer.addToProject .other rulesOnlyTemplate ["p"] false
        (Installer.addToProject .other rulesOnlyTemplate ["p"] false
          fsAliasSeeded).fs).skipped = [["rules.yaml"]] :=
  ⟨(claim_C1_amended rulesOnlyTemplate ["p"] false fsAliasSeeded).1
      ["p", ".windsurfrules"] (.raw "CUSTOM") (by decide),
   (claim_C1_amended rulesOnlyTemplate ["p"] false fsAliasSeeded).2.2⟩

/-- C3 (code bug): `addToProject` ensures all four scaffold directories,
but `createProject` never does — the scaffold directories of a create run
exist only as a side effect of copying template files into them, and the
bundled template carries no file under `doc-files`, so a successful
create run returns with `doc-files/adr` missing (while `.cursor/rules`,
`memory-bank` and `mem-scripts` happen to exist because the template has
files there), contradicting the spec and the README's promised
post-initialization structure. -/
theorem claim_C3_code_bug :
    (Installer.createProject .other Installer.bundledNextTemplate homeDir "proj"
        false fsEmptyHome).result = .ok ["home", "user", "proj"] ∧
    (Installer.createProject .other Installer.bundledNextTemplate homeDir "proj"
        false fsEmptyHome).fs.dirExists ["home", "user", "proj", "memory-bank"]
      = true ∧
    (Installer.createProject .other Installer.bundledNextTemplate homeDir "proj"
        false fsEmptyHome).fs.dirExists ["home", "user", "proj", "mem-scripts"]
      = true ∧
    (Installer.createProject .other Installer.bundledNextTemplate homeDir "proj"
        false fsEmptyHome).fs.dirExists ["home", "user", "proj", ".cursor", "rules"]
      = true ∧
    (Installer.createProject .other Installer.bundledNextTemplate homeDir "proj"
        false fsEmptyHome).fs.dirExists ["home", "user", "proj", "doc-files", "adr"]
      = false ∧
    (Installer.createProject .other Installer.bundledNextTemplate homeDir "proj"
        false fsEmptyHome).fs.dirExists ["home", "user", "proj", "doc-files"]
      = false ∧
    (Installer.addToProject .other Installer.bundledNextTemplate ["p"] false
        fsAliasSeeded).fs.dirExists ["p", ".cursor", "rules"] = true ∧
    (Installer.addToProject .other Installer.bundledNextTemplate ["p"] false
        fsAliasSeeded).fs.dirExists ["p", "doc-files", "adr"] = true ∧
    (Installer.addToProject .other Installer.bundledNextTemplate ["p"] false
        fsAliasSeeded).fs.dirExists ["p", "memory-bank"] = true ∧
    (Installer.addToProject .other Installer.bundledNextTemplate ["p"] false
        fsAliasSeeded).fs.dirExists ["p", "mem-scripts"] = true := by
  decide

/-- C4 (counterexample): on Windows the alias step is an unconditional
`fs.copyFileSync`, which overwrites the pre-existing `.windsurfrules`
sentinel with the `rules.yaml` content instead of skipping it. -/
theorem claim_C4_counterexample :
    fsAliasSeeded.lookup ["p", ".windsurfrules"] = some (.file (.raw "CUSTOM")) ∧
    (Installer.addToProject .win32 rulesOnlyTemplate ["p"] false
        fsAliasSeeded).fs.lookup ["p", ".windsurfrules"]
      = some (.file (.raw "RULES")) := by
  decide

/-- C4 (amended): on non-Windows platforms an alias file that already
exists as a regular file is never overwritten — neither by the
rule-linking block itself (`ensureSymlink` is a no-op on an existing
destination) nor across a whole `addToProject` run; no skipped-exists
status is reported anywhere (the source has no status reporting). -/
theorem claim_C4_amended :
    (∀ (pp : Path) (fs : FS) (a : String) (c : FileData), a ∈ Installer.aliasNames →
      fs.lookup (pp ++ [a]) = some (.file c) →
      (Installer.createRuleLinks .other pp fs).lookup (pp ++ [a])
        = some (.file c)) ∧
    (∀ (template : Template) (cwd : Path) (skipSymlink : Bool) (fs : FS)
      (a : String) (c : FileData), a ∈ Installer.aliasNames →
      fs.lookup (cwd ++ [a]) = some (.file c) →
      (Installer.addToProject .other template cwd skipSymlink fs).fs.lookup
        (cwd ++ [a]) = some (.file c)) := by
  constructor
  · intro pp fs a c _ h
    exact createRuleLinks_other_preserves_file pp fs (pp ++ [a]) c h
  · intro template cwd skipSymlink fs a c _ h
    exact addToProject_other_preserves_file template cwd skipSymlink fs
      (cwd ++ [a]) c h

/-- Witness for the amended C4 at concrete inputs: the seeded
`.cursorrules` survives the rule-linking block, and the seeded
`.windsurfrules` survives a whole non-Windows `addToProject` run. -/
theorem claim_C4_witness :
    (Installer.createRuleLinks .other ["p"] fsLinkStage).lookup
        ["p", ".cursorrules"] = some (.file (.raw "KEEP")) ∧
    (Installer.addToProject .other rulesOnlyTemplate ["p"] true
        fsAliasSeeded).fs.lookup ["p", ".windsurfrules"]
      = some (.file (.raw "CUSTOM")) :=
  ⟨claim_C4_amended.1 ["p"] fsLinkStage ".cursorrules" (.raw "KEEP")
      (by decide) (by decide),
   claim_C4_amended.2 rulesOnlyTemplate ["p"] true fsAliasSeeded ".windsurfrules"
      (.raw "CUSTOM") (by decide) (by decide)⟩

/-- C9: a frame property of both entry points — whatever run is made,
every path whose entry was created or modified is either a
template-relative path under the destination root or one of the three
fixed alias dotfiles there (directories are only ever created for those
files, for the destination root and for the fixed scaffold set). -/
theorem claim_C9 (platform : Platform) (template : Template) (cwd : Path)
    (projectName : String) (skipSymlink : Bool) (fs : FS) (q : Path) :
    ((Installer.createProject platform template cwd projectName skipSymlink
        fs).fs.lookup q ≠ fs.lookup q →
      (∃ tf ∈ template, q = resolvePath cwd projectName ++ tf.1) ∨
        (∃ a ∈ Installer.aliasNames, q = resolvePath cwd projectName ++ [a])) ∧
    ((Installer.addToProject platform template cwd skipSymlink fs).fs.lookup q
        ≠ fs.lookup q →
      (∃ tf ∈ template, q = cwd ++ tf.1) ∨
        (∃ a ∈ Installer.aliasNames, q = cwd ++ [a])) := by
  constructor
  · intro h
    unfold Installer.createProject at h
    revert h
    split
    · intro h
      exact absurd rfl h
    · split
      · split
        · intro h
          exact absurd rfl h
        · split
          · intro h
            exact absurd rfl h
          · intro h
            exact createProjectTail_frame platform template _ skipSymlink fs q h
      · intro h
        exact createProjectTail_frame platform template _ skipSymlink
          (fs.ensureDir (resolvePath cwd projectName)) q h
  · exact addToProject_frame platform template cwd skipSymlink fs q

/-- Witness for C9 at concrete changed paths: the `rules.yaml` written by
each flow lies in the allowed union. -/
theorem claim_C9_witness :
    ((∃ tf ∈ Installer.bundledNextTemplate,
        (["home", "user", "proj", "rules.yaml"] : Path)
          = resolvePath homeDir "proj" ++ tf.1) ∨
      (∃ a ∈ Installer.aliasNames,
        (["home", "user", "proj", "rules.yaml"] : Path)
          = resolvePath homeDir "proj" ++ [a])) ∧
    ((∃ tf ∈ rulesOnlyTemplate,
        (["p", "rules.yaml"] : Path) = ["p"] ++ tf.1) ∨
      (∃ a ∈ Installer.aliasNames,
        (["p", "rules.yaml"] : Path) = ["p"] ++ [a])) :=
  ⟨(claim_C9 .other Installer.bundledNextTemplate homeDir "proj" false fsEmptyHome
      ["home", "user", "proj", "rules.yaml"]).1 (by decide),
   (claim_C9 .other rulesOnlyTemplate ["p"] "x" false fsAliasSeeded
      ["p", "rules.yaml"]).2 (by decide)⟩

theorem createProjectTail_other_alias (template : Template) (pp : Path)
    (skipSymlink : Bool) (fs : FS) (q : Path)
    (hq : ∀ tf ∈ template, ¬ q = pp ++ tf.1) :
    (Installer.createProjectTail .other template pp skipSymlink fs).fs.lookup q
        = fs.lookup q ∨
      (Installer.createProjectTail .other template pp skipSymlink fs).fs.lookup q
        = some (.symlink true (pp ++ ["rules.yaml"])) := by
  cases skipSymlink
  case true => exact Or.inl (copy_lookup_no_target pp false template q hq fs)
  case false =>
    rcases createRuleLinks_other_lookup_or pp
      (Installer.copyTemplateFiles pp false template fs).1 q with h | h
    · exact Or.inl (h.trans (copy_lookup_no_target pp false template q hq fs))
    · exact Or.inr h

/-- C10: on non-Windows platforms, whenever either entry point creates an
alias dotfile (the template itself carrying no file by that name), the
created entry is a symbolic link whose stored target is the absolute path
of `rules.yaml` under the destination root — never a relative link. -/
theorem claim_C10 (template : Template) (cwd : Path) (projectName : String)
    (skipSymlink : Bool) (fs : FS) (a : String)
    (_ha : a ∈ Installer.aliasNames)
    (htmpl : ∀ tf ∈ template, ¬ tf.1 = [a]) :
    ((Installer.createProject .other template cwd projectName skipSymlink
        fs).fs.lookup (resolvePath cwd projectName ++ [a])
        = fs.lookup (resolvePath cwd projectName ++ [a]) ∨
      (Installer.createProject .other template cwd projectName skipSymlink
        fs).fs.lookup (resolvePath cwd projectName ++ [a])
        = some (.symlink true (resolvePath cwd projectName ++ ["rules.yaml"]))) ∧
    ((Installer.addToProject .other template cwd skipSymlink fs).fs.lookup
        (cwd ++ [a]) = fs.lookup (cwd ++ [a]) ∨
      (Installer.addToProject .other template cwd skipSymlink fs).fs.lookup
        (cwd ++ [a]) = some (.symlink true (cwd ++ ["rules.yaml"]))) := by
  have hqc : ∀ pp : Path, ∀ tf ∈ template, ¬ (pp ++ [a]) = pp ++ tf.1 := by
    intro pp tf hmem hc
    exact htmpl tf hmem ((List.append_right_inj pp).mp hc).symm
  constructor
  · unfold Installer.createProject
    split
    · exact Or.inl rfl
    · split
      · split
        · exact Or.inl rfl
        · split
          · exact Or.inl rfl
          · exact createProjectTail_other_alias template _ skipSymlink fs _
              (hqc _)
      · exact createProjectTail_other_alias template _ skipSymlink
          (fs.ensureDir (resolvePath cwd projectName)) _ (hqc _)
  · cases skipSymlink
    case true =>
      exact Or.inl (copy_lookup_no_target cwd true template (cwd ++ [a])
        (hqc cwd) fs)
    case false =>
      rcases createRuleLinks_other_lookup_or cwd
        (ensureScaffoldDirs cwd
          (Installer.copyTemplateFiles cwd true template fs).1) (cwd ++ [a])
        with h | h
      · exact Or.inl (h.trans (copy_lookup_no_target cwd true template
          (cwd ++ [a]) (hqc cwd) fs))
      · exact Or.inr h

/-- Witness for C10: a create run into an empty home directory produces
`.windsurfrules` as an absolute symlink to the project's `rules.yaml`
(the first disjunct fails, so the theorem's second disjunct is attested
concretely by the run itself). -/
theorem claim_C10_witness :
    ((Installer.createProject .other Installer.bundledNextTemplate homeDir "proj"
        false fsEmptyHome).fs.lookup (resolvePath homeDir "proj" ++ [".windsurfrules"])
        = fsEmptyHome.lookup (resolvePath homeDir "proj" ++ [".windsurfrules"]) ∨
      (Installer.createProject .other Installer.bundledNextTemplate homeDir "proj"
        false fsEmptyHome).fs.lookup (resolvePath homeDir "proj" ++ [".windsurfrules"])
        = some (.symlink true (resolvePath homeDir "proj" ++ ["rules.yaml"]))) ∧
    ((Installer.addToProject .other rulesOnlyTemplate ["p"] false
        fsAliasSeeded).fs.lookup (["p"] ++ [".clinerules"])
        = fsAliasSeeded.lookup (["p"] ++ [".clinerules"]) ∨
      (Installer.addToProject .other rulesOnlyTemplate ["p"] false
        fsAliasSeeded).fs.lookup (["p"] ++ [".clinerules"])
        = some (.symlink true (["p"] ++ ["rules.yaml"]))) :=
  ⟨(claim_C10 Installer.bundledNextTemplate homeDir "proj" false fsEmptyHome
      ".windsurfrules" (by decide) (by decide)).1,
   (claim_C10 rulesOnlyTemplate ["p"] "x" false fsAliasSeeded ".clinerules"
      (by decide) (by decide)).2⟩

theorem pkg_copy_preserves_file (targetPath : Path) (template : Template)
    (q : Path) (c : FileData) :
    ∀ fs : FS, fs.lookup q = some (.file c) →
      ((InstallerPkg.copyTemplateFiles targetPath true template fs).1).lookup q
        = some (.file c) := by
  induction template with
  | nil => exact fun fs h => h
  | cons tf rest ih =>
    intro fs h
    unfold InstallerPkg.copyTemplateFiles
    split
    · exact ih fs h
    · split
      · exact ih fs h
      · rename_i hc1 hc2
        have hne : ¬ q = targetPath ++ tf.1 := by
          intro hq
          apply hc2
          simp only [Bool.true_and]
          rw [← hq]
          exact pathExists_of_lookup_file h
        exact ih _ (by rw [lookup_setEntry, if_neg hne, lookup_ensureDir]; exact h)

/-- C7: in preserve mode, when the template carries a `package.json`
manifest and the destination already has a regular file at
`package.json`, the `package.json`-aware copy loop leaves the destination
file untouched and prints the summary of the dependencies and
devDependencies the skipped template manifest declares. -/
theorem claim_C7 (targetPath : Path) (deps devDeps : List (String × String))
    (template : Template) (fs : FS) (c : FileData)
    (hmem : ((["package.json"], FileData.manifest deps devDeps) : Path × FileData)
      ∈ template)
    (hdst : fs.lookup (targetPath ++ ["package.json"]) = some (.file c)) :
    ((InstallerPkg.copyTemplateFiles targetPath true template fs).1).lookup
        (targetPath ++ ["package.json"]) = some (.file c) ∧
      InstallerPkg.LogEvent.manifestSummary deps devDeps
        ∈ (InstallerPkg.copyTemplateFiles targetPath true template fs).2 := by
  revert hmem hdst
  induction template generalizing fs with
  | nil =>
    intro hmem _
    cases hmem
  | cons tf rest ih =>
    intro hmem hdst
    rcases List.mem_cons.mp hmem with heq | hmem2
    · subst heq
      unfold InstallerPkg.copyTemplateFiles
      have hcond : ((["package.json"] : Path).getLast? = some "package.json"
          && true && fs.pathExists (targetPath ++ ["package.json"])) = true := by
        rw [pathExists_of_lookup_file hdst]
        decide
      rw [if_pos hcond]
      exact ⟨pkg_copy_preserves_file targetPath rest _ c fs hdst,
        List.mem_cons_self _ _⟩
    · unfold InstallerPkg.copyTemplateFiles
      split
      · rcases ih fs hmem2 hdst with ⟨hpre, hlog⟩
        exact ⟨hpre, List.mem_cons_of_mem _ hlog⟩
      · split
        · rcases ih fs hmem2 hdst with ⟨hpre, hlog⟩
          exact ⟨hpre, List.mem_cons_of_mem _ hlog⟩
        · rename_i hc1 hc2
          have hne : ¬ (targetPath ++ ["package.json"]) = targetPath ++ tf.1 := by
            intro hq
            apply hc2
            simp only [Bool.true_and]
            rw [← hq]
            exact pathExists_of_lookup_file hdst
          exact ih _ hmem2
            (by rw [lookup_setEntry, if_neg hne, lookup_ensureDir]
                exact hdst)

/-- Witness for C7 at a concrete input: the destination keeps its own
manifest and the template manifest's dependency summary is printed. -/
theorem claim_C7_witness :
    ((InstallerPkg.copyTemplateFiles ["p"] true manifestTemplate fsWithManifest).1).lookup
        ["p", "package.json"] = some (.file (.manifest [("left", "1.0.0")] [])) ∧
      InstallerPkg.LogEvent.manifestSummary [("next", "12.0.0")] [("jest", "29.0.0")]
        ∈ (InstallerPkg.copyTemplateFiles ["p"] true manifestTemplate fsWithManifest).2 :=
  claim_C7 ["p"] [("next", "12.0.0")] [("jest", "29.0.0")] manifestTemplate
    fsWithManifest (.manifest [("left", "1.0.0")] []) (by decide) (by decide)

theorem splitOnChar_no_sep (sep : Char) (l : List Char)
    (h : ∀ c ∈ l, ¬ c = sep) : splitOnChar sep l = [l] := by
  induction l with
  | nil => rfl
  | cons c rest ih =>
    have hr := ih (fun c2 hc2 => h c2 (List.mem_cons_of_mem c hc2))
    unfold splitOnChar
    rw [hr]
    simp only [if_neg (h c (List.mem_cons_self c rest))]

theorem dropWhile_eq_self_of_not (p : Char → Bool) (l : List Char)
    (h : ∀ c ∈ l, p c = false) : l.dropWhile p = l := by
  cases l with
  | nil => rfl
  | cons c rest =>
    rw [List.dropWhile_cons, h c (List.mem_cons_self c rest)]
    simp

theorem jsTrim_eq_self (l : List Char)
    (h : ∀ c ∈ l, isJsWhitespace c = false) : jsTrim l = l := by
  unfold jsTrim
  rw [dropWhile_eq_self_of_not _ l h,
    dropWhile_eq_self_of_not _ l.reverse (fun c hc => h c (List.mem_reverse.mp hc))]
  exact List.reverse_reverse l

theorem strictChar_facts : ∀ c ∈ strictNameChars,
    Char.toLower c = c ∧ isJsWhitespace c = false ∧ encodeUriUnchanged c = true ∧
      ¬ c = '/' ∧
      (c = '~' || c = Char.ofNat 39 || c = '!' || c = '(' || c = ')' || c = '*')
        = false := by
  decide

theorem data_ne_nil_of_ne_empty {s : String} (h : ¬ s = "") : ¬ s.data = [] := by
  intro hd
  apply h
  cases s with
  | mk d =>
    cases hd
    rfl

/-- C6 (counterexample): the spec's rule as written admits `A` (letters
include capitals), yet the validator rejects it (the npm rule forbids
capital letters); and the claim's converse half fails as well, since the
scoped name `@a/b` contains a path separator yet validates. -/
theorem claim_C6_counterexample :
    specNameRule "A" = true ∧ (validateProjectName "A").isValid = false ∧
      ('/' ∈ ("@a/b" : String).data ∧ (validateProjectName "@a/b").isValid = true) := by
  decide

/-- C6 (amended): the validator accepts exactly along the npm rule — every
non-empty name of at most 214 characters made of lowercase letters,
digits, hyphen, underscore or dot, with no leading dot, hyphen or
underscore and not a reserved (core-module or blacklisted) name, yields
`isValid` with an empty error list; the empty name is rejected with an
error; names longer than 214 characters are rejected with at least one
error; and a name containing a path separator is rejected with at least
one error unless it is a well-formed scoped package name (`@scope/name`).
The wrapper always returns a structured result (it is a total function). -/
theorem claim_C6_amended :
    (∀ name : String, strictNameRule name = true →
      validateProjectName name = ⟨true, []⟩) ∧
    (validateProjectName "" = ⟨false, ["Project name is required"]⟩) ∧
    (∀ name : String, name.length > 214 →
      (validateProjectName name).isValid = false ∧
        (validateProjectName name).errors ≠ []) ∧
    (∀ name : String, '/' ∈ name.data → scopedNameOk name.data = false →
      (validateProjectName name).isValid = false ∧
        (validateProjectName name).errors ≠ []) := by
  refine ⟨?_, by decide, ?_, ?_⟩
  · intro name hrule
    simp only [strictNameRule, Bool.and_eq_true, decide_eq_true_eq,
      List.all_eq_true, Bool.not_eq_true] at hrule
    obtain ⟨⟨⟨⟨⟨⟨⟨hne, hlen⟩, hchars⟩, hdot⟩, hhyph⟩, hund⟩, hbuiltin⟩, hblack⟩ :=
      hrule
    have hCF : ∀ c ∈ name.data,
        Char.toLower c = c ∧ isJsWhitespace c = false ∧
          encodeUriUnchanged c = true ∧ ¬ c = '/' ∧
          (c = '~' || c = Char.ofNat 39 || c = '!' || c = '(' || c = ')'
            || c = '*') = false :=
      fun c hc => strictChar_facts c (hchars c hc)
    have hlow : asciiLowerString name = name := by
      unfold asciiLowerString
      have hmap : name.data.map Char.toLower = name.data := by
        calc name.data.map Char.toLower = name.data.map id :=
              List.map_congr_left (fun c hc => (hCF c hc).1)
          _ = name.data := List.map_id name.data
      rw [hmap]
    have hlen0 : ¬ name.length = 0 := by
      intro hl
      exact data_ne_nil_of_ne_empty hne (List.eq_nil_of_length_eq_zero hl)
    have htrim : jsTrim name.data = name.data :=
      jsTrim_eq_self name.data (fun c hc => (hCF c hc).2.1)
    have hb1 : ¬ name = "node_modules" := fun hc => hblack (by rw [hc]; decide)
    have hb2 : ¬ name = "favicon.ico" := fun hc => hblack (by rw [hc]; decide)
    have hlen214 : ¬ name.length > 214 := by omega
    have hsplit : splitOnChar '/' name.data = [name.data] :=
      splitOnChar_no_sep '/' name.data (fun c hc => (hCF c hc).2.2.2.1)
    have hspec : hasSpecialChars (lastSlashSegment name) = false := by
      unfold lastSlashSegment hasSpecialChars
      rw [hsplit]
      simp only [List.getLast?_singleton, Option.getD_some]
      rw [List.any_eq_false]
      intro c hc
      rw [(hCF c hc).2.2.2.2]
      exact Bool.false_ne_true
    have hall : name.data.all encodeUriUnchanged = true := by
      rw [List.all_eq_true]
      exact fun c hc => (hCF c hc).2.2.1
    have hnpm : validateNpmPackageName name = ⟨true, true, [], []⟩ := by
      simp [validateNpmPackageName, hlen0, hdot, hund, htrim, npmBlacklist,
        hlow, hb1, hb2, hbuiltin, hlen214, hall, hspec]
    simp [validateProjectName, hne, hnpm]
  · intro name hlen
    have hne : ¬ name = "" := by
      intro h
      subst h
      exact absurd hlen (by decide)
    have hmsg : "name can no longer contain more than 214 characters"
        ∈ (validateNpmPackageName name).warnings := by
      have hw : (validateNpmPackageName name).warnings
          = (if asciiLowerString name ∈ npmBuiltins then
              [name ++ " is a core module name"] else []) ++
            (if name.length > 214 then
              ["name can no longer contain more than 214 characters"] else []) ++
            (if ¬ asciiLowerString name = name then
              ["name can no longer contain capital letters"] else []) ++
            (if hasSpecialChars (lastSlashSegment name) then
              ["name can no longer contain special characters"] else []) := rfl
      rw [hw, if_pos hlen]
      apply List.mem_append_left
      apply List.mem_append_left
      apply List.mem_append_right
      exact List.mem_cons_self _ _
    have hwne : (validateNpmPackageName name).warnings ≠ [] :=
      List.ne_nil_of_mem hmsg
    have hwie : (validateNpmPackageName name).warnings.isEmpty = false := by
      cases hW : (validateNpmPackageName name).warnings with
      | nil => exact absurd hW hwne
      | cons a l => rfl
    have hvfn : (validateNpmPackageName name).validForNewPackages = false := by
      have hv : (validateNpmPackageName name).validForNewPackages
          = ((validateNpmPackageName name).errors.isEmpty &&
            (validateNpmPackageName name).warnings.isEmpty) := rfl
      rw [hv, hwie, Bool.and_false]
    constructor
    · simp [validateProjectName, hne, hvfn]
    · have hres : validateProjectName name
          = ⟨false, (validateNpmPackageName name).errors ++
              (validateNpmPackageName name).warnings⟩ := by
        simp [validateProjectName, hne, hvfn]
      rw [hres]
      intro hcon
      exact hwne (List.append_eq_nil.mp hcon).2
  · intro name hsep hscope
    have hne : ¬ name = "" := by
      intro h
      subst h
      cases hsep
    have hallF : name.data.all encodeUriUnchanged = false := by
      rw [List.all_eq_false]
      exact ⟨'/', hsep, by decide⟩
    have hmsg : "name can only contain URL-friendly characters"
        ∈ (validateNpmPackageName name).errors := by
      have he : (validateNpmPackageName name).errors
          = (if name.data.all encodeUriUnchanged then
              ((if name.length = 0 then
                  ["name length must be greater than zero"] else []) ++
                (if startsWithChar name '.' then
                  ["name cannot start with a period"] else []) ++
                (if startsWithChar name '_' then
                  ["name cannot start with an underscore"] else []) ++
                (if ¬ jsTrim name.data = name.data then
                  ["name cannot contain leading or trailing spaces"] else []) ++
                (npmBlacklist.filterMap (fun b =>
                  if asciiLowerString name = b then
                    some (b ++ " is a blacklisted name") else none)))
            else if scopedNameOk name.data then
              ((if name.length = 0 then
                  ["name length must be greater than zero"] else []) ++
                (if startsWithChar name '.' then
                  ["name cannot start with a period"] else []) ++
                (if startsWithChar name '_' then
                  ["name cannot start with an underscore"] else []) ++
                (if ¬ jsTrim name.data = name.data then
                  ["name cannot contain leading or trailing spaces"] else []) ++
                (npmBlacklist.filterMap (fun b =>
                  if asciiLowerString name = b then
                    some (b ++ " is a blacklisted name") else none)))
            else
              ((if name.length = 0 then
                  ["name length must be greater than zero"] else []) ++
                (if startsWithChar name '.' then
                  ["name cannot start with a period"] else []) ++
                (if startsWithChar name '_' then
                  ["name cannot start with an underscore"] else []) ++
                (if ¬ jsTrim name.data = name.data then
                  ["name cannot contain leading or trailing spaces"] else []) ++
                (npmBlacklist.filterMap (fun b =>
                  if asciiLowerString name = b then
                    some (b ++ " is a blacklisted name") else none)))
                ++ ["name can only contain URL-friendly characters"]) := rfl
      rw [he, hallF]
      simp only [Bool.false_eq_true, if_false]
      rw [if_neg (by rw [hscope]; exact Bool.false_ne_true)]
      apply List.mem_append_right
      exact List.mem_cons_self _ _
    have hene : (validateNpmPackageName name).errors ≠ [] :=
      List.ne_nil_of_mem hmsg
    have heie : (validateNpmPackageName name).errors.isEmpty = false := by
      cases hE : (validateNpmPackageName name).errors with
      | nil => exact absurd hE hene
      | cons a l => rfl
    have hvfn : (validateNpmPackageName name).validForNewPackages = false := by
      have hv : (validateNpmPackageName name).validForNewPackages
          = ((validateNpmPackageName name).errors.isEmpty &&
            (validateNpmPackageName name).warnings.isEmpty) := rfl
      rw [hv, heie, Bool.false_and]
    constructor
    · simp [validateProjectName, hne, hvfn]
    · have hres : validateProjectName name
          = ⟨false, (validateNpmPackageName name).errors ++
              (validateNpmPackageName name).warnings⟩ := by
        simp [validateProjectName, hne, hvfn]
      rw [hres]
      intro hcon
      exact hene (List.append_eq_nil.mp hcon).1

/-- Witness for the amended C6 at concrete inputs: `my-app` validates
cleanly, a 215-character name is rejected with an error, and `a/b` is
rejected with an error. -/
theorem claim_C6_witness :
    validateProjectName "my-app" = ⟨true, []⟩ ∧
    ((validateProjectName (String.mk (List.replicate 215 'a'))).isValid = false ∧
      (validateProjectName (String.mk (List.replicate 215 'a'))).errors ≠ []) ∧
    ((validateProjectName "a/b").isValid = false ∧
      (validateProjectName "a/b").errors ≠ []) :=
  ⟨claim_C6_amended.1 "my-app" (by decide),
   claim_C6_amended.2.2.1 (String.mk (List.replicate 215 'a'))
     (by
       have hl : (String.mk (List.replicate 215 'a')).length = 215 := by
         show (List.replicate 215 'a').length = 215
         rw [List.length_replicate]
       omega),
   claim_C6_amended.2.2.2 "a/b" (by decide) (by decide)⟩

end AiInit
